import Mathlib

/-!
# Verification of the PrismCast fMP4 HLS segmenter

This development shallowly embeds `createFMP4Segmenter` from
`streaming/fmp4Segmenter.ts` and proves properties of its segmentation,
playlist-generation, init-versioning and discontinuity logic.

Modelling conventions:

* The internal `SegmenterState` record is embedded field by field; JS `Map`s
  become insertion-ordered association lists (`alGet` / `alSet`), JS `Set`s
  become duplicate-free lists (`setAdd`).
* The segmenter's observable actions (`storeInitSegment`, `storeSegment`,
  `updatePlaylist`, `parser.flush()`, the `onStop` / `onError` callbacks) are
  recorded in an `effects` trace inside the state, most recent last.
* The collaborators that live in other modules (the MP4 box parser,
  `rewriteMoofTimestamps`, `parseMoovTimescales`, `detectMoofKeyframe`) are
  oracles attached to the ingest events; where their behaviour matters it is
  modelled from the specification and marked as such in the doc comment.
* Wall-clock time (`Date.now()`) is an explicit `now : Nat` argument (in
  milliseconds) carried by every event; elapsed-time arithmetic is performed
  in `ℚ`, matching JS number arithmetic on the values involved.
* JS `number` durations (seconds) are embedded as `ℚ`; JS `bigint` timestamp
  counters are embedded as `Int` and trun durations as `Nat` (they are sums
  of unsigned sample durations).
* The playlist is embedded structurally (`Playlist`), not as text: the
  header values and the per-segment lines (discontinuity marker, repeated
  `EXT-X-MAP`, `EXTINF` value, segment index) are kept as data.
-/

/-- Raw bytes of an MP4 box or buffer (the contents of a Node `Buffer`). -/
abbrev Bytes := List Nat

/-- Lookup in an insertion-ordered association list, the embedding of
`Map.get` (and of `Map.has`, via `Option.isSome`). -/
def alGet {β : Type} : List (Nat × β) → Nat → Option β
  | [], _ => none
  | (k, v) :: rest, t => if k = t then some v else alGet rest t

/-- Update-or-insert in an insertion-ordered association list, the embedding
of `Map.set`: an existing key keeps its position, a new key is appended. -/
def alSet {β : Type} : List (Nat × β) → Nat → β → List (Nat × β)
  | [], t, v => [(t, v)]
  | (k, w) :: rest, t, v => if k = t then (t, v) :: rest else (k, w) :: alSet rest t v

/-- The embedding of JS `Set.add`: append the element when it is absent. -/
def setAdd (l : List Nat) (x : Nat) : List Nat := if x ∈ l then l else l ++ [x]

/-- `CONFIG.hls`: the configuration values the segmenter reads. -/
structure Config where
  /-- `CONFIG.hls.segmentDuration`, the target segment duration in seconds. -/
  segmentDuration : ℚ
  /-- `CONFIG.hls.maxSegments`, the playlist sliding-window size. -/
  maxSegments : Nat
deriving DecidableEq

/-- `FMP4SegmenterOptions`, without the callbacks (those are recorded in the
effects trace) and without the stream id (irrelevant to a single stream). -/
structure SegmenterOptions where
  initialTrackTimestamps : Option (List (Nat × Int))
  pendingDiscontinuity : Option Bool
  previousInitSegment : Option Bytes
  startingInitVersion : Option Nat
  startingSegmentIndex : Option Nat
deriving DecidableEq

/-- A parsed top-level MP4 box as delivered by the box parser to `handleBox`,
together with the oracle outcomes of the collaborators invoked on it:

* for a `moov`, the result of `parseMoovTimescales` (`none` when it threw);
* for a `moof`, the result of `rewriteMoofTimestamps` — the per-track trun
  duration sums — or `none` when the rewrite threw.

The `data` field stands for the box bytes as they end up in the fragment
buffer (for a successfully rewritten `moof` these are the bytes with the
tfdt values patched in place; box sizes never change). -/
inductive BoxEvent
  | ftyp (data : Bytes)
  | moov (data : Bytes) (timescales : Option (List (Nat × Nat)))
  | moof (data : Bytes) (trafDurations : Option (List (Nat × Nat)))
  | mdat (data : Bytes)
  | other (data : Bytes)
deriving DecidableEq

/-- The bytes of a box event. -/
def BoxEvent.data : BoxEvent → Bytes
  | .ftyp d => d
  | .moov d _ => d
  | .moof d _ => d
  | .mdat d => d
  | .other d => d

/-- One per-segment line group of the generated playlist: the optional
`#EXT-X-DISCONTINUITY` marker with its repeated `#EXT-X-MAP` line, the
`#EXTINF` duration and the `segment<index>.m4s` URI. -/
structure PlaylistEntry where
  disc : Bool
  mapVersion : Option Nat
  extinf : ℚ
  index : Nat
deriving DecidableEq

/-- The structural content of the generated m3u8 playlist. -/
structure Playlist where
  /-- `#EXT-X-TARGETDURATION`. -/
  targetDuration : Int
  /-- `#EXT-X-MEDIA-SEQUENCE`. -/
  mediaSequence : Nat
  /-- The version on the header `#EXT-X-MAP:URI="init.mp4?v=N"` line. -/
  initVersion : Nat
  entries : List PlaylistEntry
deriving DecidableEq

/-- An observable action of the segmenter: a segment-store write, a parser
flush, or one of the `onStop` / `onError` callbacks. -/
inductive Output
  | storeInit (data : Bytes)
  | storeSeg (index : Nat) (data : Bytes)
  | updatePlaylist (p : Playlist)
  | parserFlush
  | onStop
  | onError
deriving DecidableEq

/-- The embedding of the internal `SegmenterState` record, extended with the
`effects` trace.  The keyframe statistics fields that are only written by the
(statically disabled, `KEYFRAME_DEBUG = false`) keyframe detection block are
omitted, except for `indeterminateCount` which diagnostics claims refer to. -/
structure SegmenterState where
  discontinuityIndices : List Nat
  firstSegmentEmitted : Bool
  fragmentBuffer : List Bytes
  hasInit : Bool
  indeterminateCount : Nat
  initBoxes : List Bytes
  initSegment : Option Bytes
  initVersion : Nat
  lastSegmentSize : Nat
  pendingDiscontinuity : Bool
  segmentDurations : List (Nat × ℚ)
  segmentFirstMoofChecked : Bool
  segmentIndex : Nat
  segmentStartTime : Nat
  segmentTrackDurations : List (Nat × Nat)
  stopped : Bool
  trackExpectedDurations : List (Nat × Nat)
  trackTimescales : List (Nat × Nat)
  trackTimestamps : List (Nat × Int)
  zeroDurationWarned : List Nat
  effects : List Output
deriving DecidableEq

/-- Keyframe diagnostics toggle.  It is the constant `false` in the source,
so the keyframe detection block of the moof handler is statically disabled
and `indeterminateCount` is never incremented. -/
def KEYFRAME_DEBUG : Bool := false

/-- Ratio threshold for the duration sanity check. -/
def DURATION_SANITY_RATIO : Nat := 20

/-- `generatePlaylist()`: the m3u8 playlist computed from the current state,
embedded structurally. -/
def generatePlaylist (cfg : Config) (s : SegmenterState) : Playlist :=
  -- Math.max(0, segmentIndex - maxSegments) is truncated Nat subtraction.
  let startIndex := s.segmentIndex - cfg.maxSegments
  let window := (List.range (s.segmentIndex - startIndex)).map (fun j => startIndex + j)
  let maxDuration := window.foldl
    (fun m i =>
      let duration := (alGet s.segmentDurations i).getD cfg.segmentDuration
      if duration > m then duration else m)
    cfg.segmentDuration
  { targetDuration := ⌈maxDuration⌉
    mediaSequence := startIndex
    initVersion := s.initVersion
    entries := window.map (fun i =>
      let disc := decide (i ∈ s.discontinuityIndices)
      { disc := disc
        mapVersion := if disc then some s.initVersion else none
        extinf := (alGet s.segmentDurations i).getD cfg.segmentDuration
        index := i }) }

/-- `resetSegmentTracking()`: per-segment tracking reset after a segment is
output. -/
def resetSegmentTracking (now : Nat) (s : SegmenterState) : SegmenterState :=
  { s with
    fragmentBuffer := []
    segmentFirstMoofChecked := false
    segmentStartTime := now
    segmentTrackDurations := [] }

/-- `outputSegment()`: emit the current fragment buffer as a segment, record
its duration, prune the duration window, reset per-segment tracking and
publish the regenerated playlist. -/
def outputSegment (cfg : Config) (now : Nat) (s : SegmenterState) : SegmenterState :=
  if s.fragmentBuffer = [] then s
  else
    let s :=
      if s.pendingDiscontinuity = true then
        { s with
          discontinuityIndices := setAdd s.discontinuityIndices s.segmentIndex
          pendingDiscontinuity := false }
      else s
    let mediaDuration : ℚ :=
      s.segmentTrackDurations.foldl
        (fun md p =>
          match alGet s.trackTimescales p.1 with
          | some timescale =>
            -- `if(timescale && (accumulated > 0n))`: 0 is falsy.
            if timescale ≠ 0 ∧ 0 < p.2 then
              let seconds : ℚ := (p.2 : ℚ) / (timescale : ℚ)
              if seconds > md then seconds else md
            else md
          | none => md)
        0
    let actualDuration : ℚ :=
      max (1 / 10)
        (if 0 < mediaDuration then mediaDuration
         else ((now : ℚ) - (s.segmentStartTime : ℚ)) / 1000)
    let s := { s with segmentDurations := alSet s.segmentDurations s.segmentIndex actualDuration }
    let segmentData := s.fragmentBuffer.flatten
    let s := { s with
      effects := s.effects ++ [Output.storeSeg s.segmentIndex segmentData]
      lastSegmentSize := segmentData.length }
    let s := { s with segmentIndex := s.segmentIndex + 1, firstSegmentEmitted := true }
    let pruneThreshold := s.segmentIndex - cfg.maxSegments
    let s := { s with segmentDurations := s.segmentDurations.filter (fun p => pruneThreshold ≤ p.1) }
    let s := resetSegmentTracking now s
    { s with effects := s.effects ++ [Output.updatePlaylist (generatePlaylist cfg s)] }

/-- Modelled from the spec: `rewriteMoofTimestamps` (in `mp4Parser.ts`, whose
source is not part of the material at hand) patches each traf's
`tfdt.baseMediaDecodeTime` to the current counter value and then "advances
the counter by the computed sum" of the traf's trun sample durations,
returning the per-track sums.  A track absent from the counters map starts
from zero.  On failure it throws without advancing any counter. -/
def advanceCounters (m : List (Nat × Int)) (durs : List (Nat × Nat)) : List (Nat × Int) :=
  durs.foldl (fun m td => alSet m td.1 ((alGet m td.1).getD 0 + (td.2 : Int))) m

/-- One iteration of the per-track duration loop in the moof handler:
zero-duration warning (the entry is otherwise skipped), sanity clamp against
the anchored baseline, baseline anchoring, and accumulation of the effective
duration into the per-segment track durations. -/
def sanityStep (s : SegmenterState) (td : Nat × Nat) : SegmenterState :=
  let trackId := td.1
  let duration := td.2
  if duration = 0 then
    { s with zeroDurationWarned := setAdd s.zeroDurationWarned trackId }
  else
    match alGet s.trackExpectedDurations trackId with
    | some expected =>
      -- `if(expected && (expected > 0n) && (... > expected * RATIO || ... < expected / RATIO))`
      if expected ≠ 0 ∧
          (duration > expected * DURATION_SANITY_RATIO ∨
           duration < expected / DURATION_SANITY_RATIO) then
        let s :=
          (match alGet s.trackTimestamps trackId with
           | some current =>
             { s with trackTimestamps :=
                 alSet s.trackTimestamps trackId (current - (duration : Int) + (expected : Int)) }
           | none => s)
        -- effectiveDuration = expected
        let prev := (alGet s.segmentTrackDurations trackId).getD 0
        { s with segmentTrackDurations := alSet s.segmentTrackDurations trackId (prev + expected) }
      else
        let prev := (alGet s.segmentTrackDurations trackId).getD 0
        { s with segmentTrackDurations := alSet s.segmentTrackDurations trackId (prev + duration) }
    | none =>
      -- Establish the baseline from the first valid (nonzero) moof duration.
      let s := { s with trackExpectedDurations := alSet s.trackExpectedDurations trackId duration }
      let prev := (alGet s.segmentTrackDurations trackId).getD 0
      { s with segmentTrackDurations := alSet s.segmentTrackDurations trackId (prev + duration) }

/-- The per-track duration loop of the moof handler. -/
def sanityLoop (s : SegmenterState) (durs : List (Nat × Nat)) : SegmenterState :=
  durs.foldl sanityStep s

/-- The moof rewrite step of `handleBox` for a successful rewrite: the
counter advance performed inside `rewriteMoofTimestamps` (modelled from the
spec, see `advanceCounters`) followed by the segmenter's own sanity loop over
the returned per-track durations. -/
def processTrafDurations (s : SegmenterState) (durs : List (Nat × Nat)) : SegmenterState :=
  sanityLoop { s with trackTimestamps := advanceCounters s.trackTimestamps durs } durs

/-- Whether a box is collected for the init segment (`ftyp` or `moov`). -/
def isInitBox : BoxEvent → Bool
  | .ftyp _ => true
  | .moov _ _ => true
  | _ => false

/-- `const initChanged = !previousInitSegment || !initData.equals(previousInitSegment)`:
whether the assembled init bytes differ from the supervisor-supplied previous
init segment (always true on a fresh start). -/
def initChanged (opts : SegmenterOptions) (initData : Bytes) : Bool :=
  (match opts.previousInitSegment with
   | none => true
   | some p => decide (initData ≠ p))

/-- The init-segment branch of `handleBox` (only reached while `hasInit` is
false and the box is `ftyp` or `moov`). -/
def handleInitBox (opts : SegmenterOptions) (box : BoxEvent) (s : SegmenterState) : SegmenterState :=
  match box with
  | .ftyp data => { s with initBoxes := s.initBoxes ++ [data] }
  | .moov data timescales =>
    let initBoxes' := s.initBoxes ++ [data]
    let initData := initBoxes'.flatten
    let s := { s with
      initBoxes := initBoxes'
      effects := s.effects ++ [Output.storeInit initData]
      hasInit := true
      initSegment := some initData }
    let changed : Bool := initChanged opts initData
    let s := if changed then { s with initVersion := s.initVersion + 1 } else s
    -- `try { state.trackTimescales = parseMoovTimescales(box.data) } catch { ... }`
    let s :=
      (match timescales with
       | some m => { s with trackTimescales := m }
       | none => s)
    -- Suppress the pending discontinuity when codec parameters are unchanged.
    if changed = false ∧ s.pendingDiscontinuity = true then
      { s with pendingDiscontinuity := false }
    else s
  | _ => s

/-- The segment-cut decision run at the start of the moof branch of
`handleBox`, before the moof is added to the buffer: never cut on an empty
buffer; cut immediately while no segment has been emitted yet; afterwards cut
exactly when the elapsed wall-clock time has reached the target duration. -/
def cutState (cfg : Config) (now : Nat) (s : SegmenterState) : SegmenterState :=
  if s.fragmentBuffer = [] then s
  else if s.firstSegmentEmitted = false then outputSegment cfg now s
  else if cfg.segmentDuration * 1000 ≤ (now : ℚ) - (s.segmentStartTime : ℚ) then
    outputSegment cfg now s
  else s

/-- `handleBox()`: process one parsed MP4 box. -/
def handleBox (cfg : Config) (opts : SegmenterOptions) (now : Nat) (box : BoxEvent)
    (s : SegmenterState) : SegmenterState :=
  if s.stopped = true then s
  else if s.hasInit = false ∧ isInitBox box = true then handleInitBox opts box s
  else
    match box with
    | .moof data rewriteResult =>
      -- Segment-cut decision, before adding this moof to the buffer.
      let s := cutState cfg now s
      -- `try { rewriteMoofTimestamps ... } catch { debug log only }`
      let s :=
        (match rewriteResult with
         | some durs => processTrafDurations s durs
         | none => s)
      -- KEYFRAME_DEBUG is false: the keyframe detection block is disabled.
      { s with fragmentBuffer := s.fragmentBuffer ++ [data] }
    | .mdat data => { s with fragmentBuffer := s.fragmentBuffer ++ [data] }
    | b => if s.hasInit = true then { s with fragmentBuffer := s.fragmentBuffer ++ [b.data] } else s

/-- `handleEnd()`: natural end of the input stream. -/
def handleEnd (cfg : Config) (now : Nat) (s : SegmenterState) : SegmenterState :=
  if s.stopped = true then s
  else
    let s := if s.fragmentBuffer = [] then s else outputSegment cfg now s
    { s with stopped := true, effects := s.effects ++ [.parserFlush, .onStop] }

/-- `handleError()`: input stream error. -/
def handleError (s : SegmenterState) : SegmenterState :=
  if s.stopped = true then s
  else { s with stopped := true, effects := s.effects ++ [.parserFlush, .onError] }

/-- `markDiscontinuity()`: flush the buffer as a short segment and flag the
next segment with a discontinuity marker. -/
def markDiscontinuity (cfg : Config) (now : Nat) (s : SegmenterState) : SegmenterState :=
  if s.stopped = true then s
  else
    let s := outputSegment cfg now s
    { s with pendingDiscontinuity := true }

/-- `stop()`: mark the segmenter stopped, detach the stream listeners
(observably: every later event is dropped) and flush the parser.  Note that
it does not invoke `onStop` and does not flush the fragment buffer. -/
def stopSegmenter (s : SegmenterState) : SegmenterState :=
  if s.stopped = true then s
  else { s with stopped := true, effects := s.effects ++ [.parserFlush] }

/-- The initial state built by `createFMP4Segmenter` from its options;
`now0` is the `Date.now()` at creation. -/
def initState (opts : SegmenterOptions) (now0 : Nat) : SegmenterState :=
  { discontinuityIndices := []
    firstSegmentEmitted := false
    fragmentBuffer := []
    hasInit := false
    indeterminateCount := 0
    initBoxes := []
    initSegment := none
    initVersion := opts.startingInitVersion.getD 0
    lastSegmentSize := 0
    pendingDiscontinuity := opts.pendingDiscontinuity.getD false
    segmentDurations := []
    segmentFirstMoofChecked := false
    segmentIndex := opts.startingSegmentIndex.getD 0
    segmentStartTime := now0
    segmentTrackDurations := []
    stopped := false
    trackExpectedDurations := []
    trackTimescales := []
    trackTimestamps := opts.initialTrackTimestamps.getD []
    zeroDurationWarned := []
    effects := [] }

/-- One external operation on the segmenter: a parsed box arriving on the
ingest path, the upstream `end` or `error` signal, or a supervisor call. -/
inductive Event
  | box (now : Nat) (b : BoxEvent)
  | streamEnd (now : Nat)
  | streamError
  | markDisc (now : Nat)
  | stop
deriving DecidableEq

/-- Dispatch one event to the corresponding handler. -/
def step (cfg : Config) (opts : SegmenterOptions) (s : SegmenterState) (e : Event) :
    SegmenterState :=
  match e with
  | .box now b => handleBox cfg opts now b s
  | .streamEnd now => handleEnd cfg now s
  | .streamError => handleError s
  | .markDisc now => markDiscontinuity cfg now s
  | .stop => stopSegmenter s

/-- Run a sequence of events against the segmenter. -/
def run (cfg : Config) (opts : SegmenterOptions) (s : SegmenterState) (events : List Event) :
    SegmenterState :=
  events.foldl (step cfg opts) s

/-! ## Association list lemmas -/

theorem alGet_alSet_self {β : Type} (m : List (Nat × β)) (k : Nat) (v : β) :
    alGet (alSet m k v) k = some v := by
  induction m with
  | nil => simp [alGet, alSet]
  | cons p rest ih =>
    by_cases h : p.1 = k
    · simp [alSet, alGet, h]
    · simp [alSet, alGet, h, ih]

theorem alGet_alSet_ne {β : Type} (m : List (Nat × β)) (k t : Nat) (v : β) (h : k ≠ t) :
    alGet (alSet m k v) t = alGet m t := by
  induction m with
  | nil => simp [alGet, alSet, h]
  | cons p rest ih =>
    by_cases hp : p.1 = k
    · simp [alSet, alGet, hp, h]
    · by_cases hpt : p.1 = t <;> simp [alSet, alGet, hp, hpt, ih, Ne.symm h]

theorem mem_setAdd_self (l : List Nat) (x : Nat) : x ∈ setAdd l x := by
  unfold setAdd
  split
  · assumption
  · simp

/-! ## Per-track trun duration sums (for the modelled rewrite advance) -/

/-- The total trun duration a moof reports for track `t`. -/
def tdSum (t : Nat) : List (Nat × Nat) → Int
  | [] => 0
  | (k, d) :: rest => (if k = t then (d : Int) else 0) + tdSum t rest

theorem tdSum_nonneg (t : Nat) (durs : List (Nat × Nat)) : 0 ≤ tdSum t durs := by
  induction durs with
  | nil => simp [tdSum]
  | cons p rest ih =>
    obtain ⟨k, d⟩ := p
    unfold tdSum
    split <;> omega

theorem advanceCounters_cons (m : List (Nat × Int)) (k d : Nat) (rest : List (Nat × Nat)) :
    advanceCounters m ((k, d) :: rest) =
      advanceCounters (alSet m k ((alGet m k).getD 0 + (d : Int))) rest := rfl

theorem advanceCounters_get_some (durs : List (Nat × Nat)) (m : List (Nat × Int)) (t : Nat)
    (v : Int) (h : alGet m t = some v) :
    alGet (advanceCounters m durs) t = some (v + tdSum t durs) := by
  induction durs generalizing m v with
  | nil => simpa [advanceCounters, tdSum] using h
  | cons p rest ih =>
    obtain ⟨k, d⟩ := p
    rw [advanceCounters_cons]
    by_cases hk : k = t
    · subst hk
      have h1 : alGet (alSet m k ((alGet m k).getD 0 + (d : Int))) k = some (v + (d : Int)) := by
        rw [alGet_alSet_self, h]
        simp
      have := ih _ _ h1
      rw [this]
      simp [tdSum]
      ring_nf
    · have h1 : alGet (alSet m k ((alGet m k).getD 0 + (d : Int))) t = some v := by
        rw [alGet_alSet_ne _ _ _ _ hk, h]
      have := ih _ _ h1
      rw [this]
      simp [tdSum, hk]

theorem advanceCounters_get_of_no_key (durs : List (Nat × Nat)) (m : List (Nat × Int)) (t : Nat)
    (h : ∀ p ∈ durs, p.1 ≠ t) :
    alGet (advanceCounters m durs) t = alGet m t := by
  induction durs generalizing m with
  | nil => rfl
  | cons p rest ih =>
    obtain ⟨k, d⟩ := p
    rw [advanceCounters_cons]
    have hk : k ≠ t := h (k, d) (by simp)
    rw [ih _ (fun q hq => h q (by simp [hq])), alGet_alSet_ne _ _ _ _ hk]

theorem advanceCounters_append (m : List (Nat × Int)) (l1 l2 : List (Nat × Nat)) :
    advanceCounters m (l1 ++ l2) = advanceCounters (advanceCounters m l1) l2 :=
  List.foldl_append _ _ _ _

theorem advanceCounters_get_entry (m : List (Nat × Int)) (t d : Nat)
    (l1 l2 : List (Nat × Nat)) (h1 : ∀ p ∈ l1, p.1 ≠ t) (h2 : ∀ p ∈ l2, p.1 ≠ t) :
    alGet (advanceCounters m (l1 ++ (t, d) :: l2)) t =
      some ((alGet m t).getD 0 + (d : Int)) := by
  rw [advanceCounters_append, advanceCounters_cons,
    advanceCounters_get_of_no_key _ _ _ h2, alGet_alSet_self,
    advanceCounters_get_of_no_key _ _ _ h1]

/-! ## Characterization and preservation lemmas for the handlers -/

theorem handleInitBox_ftyp_eq (opts : SegmenterOptions) (data : Bytes) (s : SegmenterState) :
    handleInitBox opts (BoxEvent.ftyp data) s = { s with initBoxes := s.initBoxes ++ [data] } :=
  rfl

theorem handleInitBox_moov_eq (opts : SegmenterOptions) (data : Bytes)
    (timescales : Option (List (Nat × Nat))) (s : SegmenterState) :
    handleInitBox opts (BoxEvent.moov data timescales) s =
      { s with
        initBoxes := s.initBoxes ++ [data]
        effects := s.effects ++ [Output.storeInit ((s.initBoxes ++ [data]).flatten)]
        hasInit := true
        initSegment := some ((s.initBoxes ++ [data]).flatten)
        initVersion :=
          if initChanged opts ((s.initBoxes ++ [data]).flatten) then s.initVersion + 1
          else s.initVersion
        trackTimescales := timescales.getD s.trackTimescales
        pendingDiscontinuity :=
          s.pendingDiscontinuity && initChanged opts ((s.initBoxes ++ [data]).flatten) } := by
  simp only [handleInitBox]
  set B := (s.initBoxes ++ [data]).flatten with hB
  cases hc : initChanged opts B <;> cases timescales <;> cases hp : s.pendingDiscontinuity <;>
    simp [hc, hp]

theorem outputSegment_empty (cfg : Config) (now : Nat) (s : SegmenterState)
    (h : s.fragmentBuffer = []) : outputSegment cfg now s = s := by
  unfold outputSegment
  simp [h]

theorem outputSegment_preserved (cfg : Config) (now : Nat) (s : SegmenterState) :
    (outputSegment cfg now s).stopped = s.stopped ∧
    (outputSegment cfg now s).trackTimestamps = s.trackTimestamps ∧
    (outputSegment cfg now s).trackExpectedDurations = s.trackExpectedDurations ∧
    (outputSegment cfg now s).trackTimescales = s.trackTimescales ∧
    (outputSegment cfg now s).hasInit = s.hasInit ∧
    (outputSegment cfg now s).initVersion = s.initVersion ∧
    (outputSegment cfg now s).initSegment = s.initSegment ∧
    (outputSegment cfg now s).initBoxes = s.initBoxes ∧
    (outputSegment cfg now s).indeterminateCount = s.indeterminateCount ∧
    (outputSegment cfg now s).zeroDurationWarned = s.zeroDurationWarned := by
  unfold outputSegment resetSegmentTracking
  split
  · simp
  · split <;> simp

theorem outputSegment_emitted (cfg : Config) (now : Nat) (s : SegmenterState)
    (h : ¬s.fragmentBuffer = []) :
    (outputSegment cfg now s).segmentIndex = s.segmentIndex + 1 ∧
    (outputSegment cfg now s).fragmentBuffer = [] ∧
    (outputSegment cfg now s).firstSegmentEmitted = true ∧
    (outputSegment cfg now s).pendingDiscontinuity = false ∧
    (outputSegment cfg now s).discontinuityIndices =
      (if s.pendingDiscontinuity = true then setAdd s.discontinuityIndices s.segmentIndex
       else s.discontinuityIndices) ∧
    (∃ p, (outputSegment cfg now s).effects =
      s.effects ++ [Output.storeSeg s.segmentIndex s.fragmentBuffer.flatten,
        Output.updatePlaylist p]) := by
  unfold outputSegment resetSegmentTracking
  rw [if_neg h]
  split <;> simp_all

theorem sanityStep_preserved (s : SegmenterState) (td : Nat × Nat) :
    (sanityStep s td).stopped = s.stopped ∧
    (sanityStep s td).effects = s.effects ∧
    (sanityStep s td).fragmentBuffer = s.fragmentBuffer ∧
    (sanityStep s td).segmentIndex = s.segmentIndex ∧
    (sanityStep s td).hasInit = s.hasInit ∧
    (sanityStep s td).initVersion = s.initVersion ∧
    (sanityStep s td).initSegment = s.initSegment ∧
    (sanityStep s td).initBoxes = s.initBoxes ∧
    (sanityStep s td).indeterminateCount = s.indeterminateCount ∧
    (sanityStep s td).pendingDiscontinuity = s.pendingDiscontinuity ∧
    (sanityStep s td).firstSegmentEmitted = s.firstSegmentEmitted ∧
    (sanityStep s td).segmentStartTime = s.segmentStartTime ∧
    (sanityStep s td).segmentDurations = s.segmentDurations ∧
    (sanityStep s td).discontinuityIndices = s.discontinuityIndices ∧
    (sanityStep s td).trackTimescales = s.trackTimescales := by
  unfold sanityStep
  dsimp only
  split
  · simp
  · split
    · split
      · split <;> simp
      · simp
    · simp

theorem sanityLoop_preserved (durs : List (Nat × Nat)) (s : SegmenterState) :
    (sanityLoop s durs).stopped = s.stopped ∧
    (sanityLoop s durs).effects = s.effects ∧
    (sanityLoop s durs).fragmentBuffer = s.fragmentBuffer ∧
    (sanityLoop s durs).segmentIndex = s.segmentIndex ∧
    (sanityLoop s durs).hasInit = s.hasInit ∧
    (sanityLoop s durs).initVersion = s.initVersion ∧
    (sanityLoop s durs).initSegment = s.initSegment ∧
    (sanityLoop s durs).initBoxes = s.initBoxes ∧
    (sanityLoop s durs).indeterminateCount = s.indeterminateCount ∧
    (sanityLoop s durs).pendingDiscontinuity = s.pendingDiscontinuity ∧
    (sanityLoop s durs).firstSegmentEmitted = s.firstSegmentEmitted ∧
    (sanityLoop s durs).segmentStartTime = s.segmentStartTime ∧
    (sanityLoop s durs).segmentDurations = s.segmentDurations ∧
    (sanityLoop s durs).discontinuityIndices = s.discontinuityIndices ∧
    (sanityLoop s durs).trackTimescales = s.trackTimescales := by
  induction durs generalizing s with
  | nil => simp [sanityLoop]
  | cons td rest ih =>
    have hstep := sanityStep_preserved s td
    have hrest := ih (sanityStep s td)
    have hfold : sanityLoop s (td :: rest) = sanityLoop (sanityStep s td) rest := rfl
    rw [hfold]
    obtain ⟨a1, a2, a3, a4, a5, a6, a7, a8, a9, a10, a11, a12, a13, a14, a15⟩ := hstep
    obtain ⟨b1, b2, b3, b4, b5, b6, b7, b8, b9, b10, b11, b12, b13, b14, b15⟩ := hrest
    exact ⟨b1.trans a1, b2.trans a2, b3.trans a3, b4.trans a4, b5.trans a5, b6.trans a6,
      b7.trans a7, b8.trans a8, b9.trans a9, b10.trans a10, b11.trans a11, b12.trans a12,
      b13.trans a13, b14.trans a14, b15.trans a15⟩

theorem processTrafDurations_preserved (s : SegmenterState) (durs : List (Nat × Nat)) :
    (processTrafDurations s durs).stopped = s.stopped ∧
    (processTrafDurations s durs).effects = s.effects ∧
    (processTrafDurations s durs).fragmentBuffer = s.fragmentBuffer ∧
    (processTrafDurations s durs).segmentIndex = s.segmentIndex ∧
    (processTrafDurations s durs).hasInit = s.hasInit ∧
    (processTrafDurations s durs).initVersion = s.initVersion ∧
    (processTrafDurations s durs).initSegment = s.initSegment ∧
    (processTrafDurations s durs).initBoxes = s.initBoxes ∧
    (processTrafDurations s durs).indeterminateCount = s.indeterminateCount ∧
    (processTrafDurations s durs).pendingDiscontinuity = s.pendingDiscontinuity ∧
    (processTrafDurations s durs).firstSegmentEmitted = s.firstSegmentEmitted ∧
    (processTrafDurations s durs).segmentStartTime = s.segmentStartTime ∧
    (processTrafDurations s durs).segmentDurations = s.segmentDurations ∧
    (processTrafDurations s durs).discontinuityIndices = s.discontinuityIndices ∧
    (processTrafDurations s durs).trackTimescales = s.trackTimescales :=
  sanityLoop_preserved durs { s with trackTimestamps := advanceCounters s.trackTimestamps durs }

/-- After the segmenter is stopped, every event is dropped without effect
(the ingest handlers early-return and the listeners are detached). -/
theorem step_of_stopped (cfg : Config) (opts : SegmenterOptions) (s : SegmenterState)
    (e : Event) (h : s.stopped = true) : step cfg opts s e = s := by
  cases e with
  | box now b => simp [step, handleBox, h]
  | streamEnd now => simp [step, handleEnd, h]
  | streamError => simp [step, handleError, h]
  | markDisc now => simp [step, markDiscontinuity, h]
  | stop => simp [step, stopSegmenter, h]

/-! ## C8 -/

/-- C8 (amended): `stop()` is idempotent and, once stopped, every further
event (ingest data, end, error, supervisor calls) is dropped without effect;
a first `stop()` marks the segmenter stopped and flushes the parser — and
nothing else: it does **not** call `onStop` and does not flush the fragment
buffer as a segment; the natural end-of-stream path, in contrast, emits the
remaining buffered fragments as a final segment and then flushes the parser
and calls `onStop`. -/
theorem C8_theorem (cfg : Config) (opts : SegmenterOptions) :
    (∀ s e, s.stopped = true → step cfg opts s e = s) ∧
    (∀ s : SegmenterState, s.stopped = false →
      (stopSegmenter s).stopped = true ∧
      (stopSegmenter s).effects = s.effects ++ [Output.parserFlush] ∧
      (stopSegmenter s).fragmentBuffer = s.fragmentBuffer) ∧
    (∀ (now : Nat) (s : SegmenterState), s.stopped = false → ¬s.fragmentBuffer = [] →
      ∃ p, (handleEnd cfg now s).stopped = true ∧
        (handleEnd cfg now s).effects =
          s.effects ++ [Output.storeSeg s.segmentIndex s.fragmentBuffer.flatten,
            Output.updatePlaylist p, Output.parserFlush, Output.onStop]) := by
  refine ⟨fun s e h => step_of_stopped cfg opts s e h, fun s h => ?_, fun now s h hb => ?_⟩
  · unfold stopSegmenter
    rw [if_neg (by simp [h])]
    exact ⟨rfl, rfl, rfl⟩
  · obtain ⟨p, hp⟩ := (outputSegment_emitted cfg now s hb).2.2.2.2.2
    refine ⟨p, ?_, ?_⟩
    · simp [handleEnd, h, hb]
    · simp [handleEnd, h, hb, hp]

/-- C8 counterexample: the claim as stated says `stop()` "calls onStop".  On
a fresh, non-stopped segmenter, `stop()` records only the parser flush in the
effects trace: `onStop` is never invoked by `stop()`. -/
theorem C8_counterexample :
    (stopSegmenter (initState ⟨none, none, none, none, none⟩ 0)).stopped = true ∧
    Output.onStop ∉ (stopSegmenter (initState ⟨none, none, none, none, none⟩ 0)).effects := by
  decide

/-- Witness for `C8_theorem` at concrete inputs. -/
theorem C8_witness :
    ({ initState ⟨none, none, none, none, none⟩ 0 with stopped := true } :
        SegmenterState).stopped = true ∧
    step ⟨2, 5⟩ ⟨none, none, none, none, none⟩
        { initState ⟨none, none, none, none, none⟩ 0 with stopped := true }
        (Event.streamEnd 7) =
      { initState ⟨none, none, none, none, none⟩ 0 with stopped := true } ∧
    ((initState ⟨none, none, none, none, none⟩ 0).stopped = false ∧
      (stopSegmenter (initState ⟨none, none, none, none, none⟩ 0)).stopped = true) ∧
    (({ initState ⟨none, none, none, none, none⟩ 0 with fragmentBuffer := [[1, 2]] } :
        SegmenterState).stopped = false ∧
      ∃ p, (handleEnd ⟨2, 5⟩ 9
          { initState ⟨none, none, none, none, none⟩ 0 with fragmentBuffer := [[1, 2]] }).effects =
        ({ initState ⟨none, none, none, none, none⟩ 0 with fragmentBuffer := [[1, 2]] } :
            SegmenterState).effects ++
          [Output.storeSeg
              ({ initState ⟨none, none, none, none, none⟩ 0 with fragmentBuffer := [[1, 2]] } :
                SegmenterState).segmentIndex
              ({ initState ⟨none, none, none, none, none⟩ 0 with fragmentBuffer := [[1, 2]] } :
                SegmenterState).fragmentBuffer.flatten,
            Output.updatePlaylist p, Output.parserFlush, Output.onStop]) := by
  refine ⟨by decide, (C8_theorem ⟨2, 5⟩ ⟨none, none, none, none, none⟩).1 _ _ (by decide),
    ⟨by decide, ((C8_theorem ⟨2, 5⟩ ⟨none, none, none, none, none⟩).2.1 _ (by decide)).1⟩,
    by decide, ?_⟩
  obtain ⟨p, _, h2⟩ :=
    (C8_theorem ⟨2, 5⟩ ⟨none, none, none, none, none⟩).2.2 9
      { initState ⟨none, none, none, none, none⟩ 0 with fragmentBuffer := [[1, 2]] }
      (by decide) (by decide)
  exact ⟨p, h2⟩

/-! ## Lemmas about the segment-cut decision and the moof path -/

theorem cutState_preserved (cfg : Config) (now : Nat) (s : SegmenterState) :
    (cutState cfg now s).stopped = s.stopped ∧
    (cutState cfg now s).trackTimestamps = s.trackTimestamps ∧
    (cutState cfg now s).trackExpectedDurations = s.trackExpectedDurations ∧
    (cutState cfg now s).trackTimescales = s.trackTimescales ∧
    (cutState cfg now s).hasInit = s.hasInit ∧
    (cutState cfg now s).initVersion = s.initVersion ∧
    (cutState cfg now s).initSegment = s.initSegment ∧
    (cutState cfg now s).initBoxes = s.initBoxes ∧
    (cutState cfg now s).indeterminateCount = s.indeterminateCount := by
  unfold cutState
  have hp := outputSegment_preserved cfg now s
  obtain ⟨p1, p2, p3, p4, p5, p6, p7, p8, p9, _⟩ := hp
  split
  · exact ⟨rfl, rfl, rfl, rfl, rfl, rfl, rfl, rfl, rfl⟩
  · split
    · exact ⟨p1, p2, p3, p4, p5, p6, p7, p8, p9⟩
    · split
      · exact ⟨p1, p2, p3, p4, p5, p6, p7, p8, p9⟩
      · exact ⟨rfl, rfl, rfl, rfl, rfl, rfl, rfl, rfl, rfl⟩

theorem cutState_effects (cfg : Config) (now : Nat) (s : SegmenterState) :
    (cutState cfg now s).effects = s.effects ∨
      ∃ p, (cutState cfg now s).effects =
        s.effects ++ [Output.storeSeg s.segmentIndex s.fragmentBuffer.flatten,
          Output.updatePlaylist p] := by
  unfold cutState
  split
  · exact Or.inl rfl
  · rename_i hb
    split
    · exact Or.inr ((outputSegment_emitted cfg now s hb).2.2.2.2.2)
    · split
      · exact Or.inr ((outputSegment_emitted cfg now s hb).2.2.2.2.2)
      · exact Or.inl rfl

theorem handleBox_moof_eq (cfg : Config) (opts : SegmenterOptions) (now : Nat) (data : Bytes)
    (rw : Option (List (Nat × Nat))) (s : SegmenterState) (h : s.stopped = false) :
    handleBox cfg opts now (BoxEvent.moof data rw) s =
      (match rw with
       | some durs =>
         { processTrafDurations (cutState cfg now s) durs with
           fragmentBuffer := (processTrafDurations (cutState cfg now s) durs).fragmentBuffer ++ [data] }
       | none =>
         { cutState cfg now s with
           fragmentBuffer := (cutState cfg now s).fragmentBuffer ++ [data] }) := by
  cases rw <;> simp [handleBox, h, isInitBox]

/-! ## C7 -/

/-- C7 (amended): when the moof timestamp rewrite throws for a fragment, the
pipeline does not stop; the offending moof is still appended to the current
segment buffer; no track counter is advanced for it, so the next valid moof's
rewrite resumes from the prior counter values; the fault is recorded only as
a debug log — in particular the `indeterminateCount` diagnostic is **not**
incremented (keyframe debugging is compiled off) — and fragment-level faults
never propagate through `onError`. -/
theorem C7_theorem (cfg : Config) (opts : SegmenterOptions) (now : Nat) (data : Bytes)
    (s : SegmenterState) (h : s.stopped = false) :
    (step cfg opts s (Event.box now (BoxEvent.moof data none))).stopped = false ∧
    (step cfg opts s (Event.box now (BoxEvent.moof data none))).trackTimestamps =
      s.trackTimestamps ∧
    (step cfg opts s (Event.box now (BoxEvent.moof data none))).indeterminateCount =
      s.indeterminateCount ∧
    (∃ l, (step cfg opts s (Event.box now (BoxEvent.moof data none))).fragmentBuffer =
      l ++ [data]) ∧
    (∃ new, (step cfg opts s (Event.box now (BoxEvent.moof data none))).effects =
      s.effects ++ new ∧ Output.onError ∉ new) := by
  have heq : step cfg opts s (Event.box now (BoxEvent.moof data none)) =
      { cutState cfg now s with
        fragmentBuffer := (cutState cfg now s).fragmentBuffer ++ [data] } := by
    show handleBox cfg opts now (BoxEvent.moof data none) s = _
    exact handleBox_moof_eq cfg opts now data none s h
  obtain ⟨c1, c2, _, _, _, _, _, _, c9⟩ := cutState_preserved cfg now s
  refine ⟨?_, ?_, ?_, ⟨(cutState cfg now s).fragmentBuffer, ?_⟩, ?_⟩
  · rw [heq]; exact c1.trans h
  · rw [heq]; exact c2
  · rw [heq]; exact c9
  · rw [heq]
  · rcases cutState_effects cfg now s with hc | ⟨p, hp⟩
    · exact ⟨[], by rw [heq]; simpa using hc, by simp⟩
    · exact ⟨[Output.storeSeg s.segmentIndex s.fragmentBuffer.flatten, Output.updatePlaylist p],
        by rw [heq]; simpa using hp, by simp⟩

/-- C7 counterexample: the claim as stated requires the indeterminate counter
to be incremented when a moof's rewrite throws.  On a fresh stream whose
third box is a moof for which `rewriteMoofTimestamps` throws, the
indeterminate counter remains 0 (the failure is only logged; keyframe
debugging, the sole writer of that counter, is compiled off). -/
theorem C7_counterexample :
    (run ⟨2, 5⟩ ⟨none, none, none, none, none⟩ (initState ⟨none, none, none, none, none⟩ 0)
        [Event.box 0 (BoxEvent.ftyp [1]),
         Event.box 0 (BoxEvent.moov [2] (some [(1, 90000)])),
         Event.box 5 (BoxEvent.moof [3] none)]).indeterminateCount = 0 ∧
    KEYFRAME_DEBUG = false := by
  decide

/-- Witness for `C7_theorem` at concrete inputs. -/
theorem C7_witness :
    (initState ⟨none, none, none, none, none⟩ 0).stopped = false ∧
    (step ⟨2, 5⟩ ⟨none, none, none, none, none⟩ (initState ⟨none, none, none, none, none⟩ 0)
        (Event.box 4 (BoxEvent.moof [9] none))).stopped = false ∧
    (step ⟨2, 5⟩ ⟨none, none, none, none, none⟩ (initState ⟨none, none, none, none, none⟩ 0)
        (Event.box 4 (BoxEvent.moof [9] none))).trackTimestamps =
      (initState ⟨none, none, none, none, none⟩ 0).trackTimestamps ∧
    (∃ l, (step ⟨2, 5⟩ ⟨none, none, none, none, none⟩ (initState ⟨none, none, none, none, none⟩ 0)
        (Event.box 4 (BoxEvent.moof [9] none))).fragmentBuffer = l ++ [[9]]) := by
  have h := C7_theorem ⟨2, 5⟩ ⟨none, none, none, none, none⟩ 4 [9]
    (initState ⟨none, none, none, none, none⟩ 0) (by decide)
  exact ⟨by decide, h.1, h.2.1, h.2.2.2.1⟩

theorem handleBox_ftyp_eq (cfg : Config) (opts : SegmenterOptions) (now : Nat) (data : Bytes)
    (s : SegmenterState) (h : s.stopped = false) :
    handleBox cfg opts now (BoxEvent.ftyp data) s =
      if s.hasInit = true then { s with fragmentBuffer := s.fragmentBuffer ++ [data] }
      else { s with initBoxes := s.initBoxes ++ [data] } := by
  cases hI : s.hasInit <;> simp [handleBox, h, hI, isInitBox, handleInitBox, BoxEvent.data]

theorem handleBox_moov_hasInit_eq (cfg : Config) (opts : SegmenterOptions) (now : Nat)
    (data : Bytes) (ts : Option (List (Nat × Nat))) (s : SegmenterState)
    (h : s.stopped = false) (hI : s.hasInit = true) :
    handleBox cfg opts now (BoxEvent.moov data ts) s =
      { s with fragmentBuffer := s.fragmentBuffer ++ [data] } := by
  simp [handleBox, h, hI, isInitBox, BoxEvent.data]

theorem handleBox_moov_noInit_eq (cfg : Config) (opts : SegmenterOptions) (now : Nat)
    (data : Bytes) (ts : Option (List (Nat × Nat))) (s : SegmenterState)
    (h : s.stopped = false) (hI : s.hasInit = false) :
    handleBox cfg opts now (BoxEvent.moov data ts) s =
      handleInitBox opts (BoxEvent.moov data ts) s := by
  simp [handleBox, h, hI, isInitBox]

theorem handleBox_mdat_eq (cfg : Config) (opts : SegmenterOptions) (now : Nat) (data : Bytes)
    (s : SegmenterState) (h : s.stopped = false) :
    handleBox cfg opts now (BoxEvent.mdat data) s =
      { s with fragmentBuffer := s.fragmentBuffer ++ [data] } := by
  simp [handleBox, h, isInitBox]

theorem handleBox_other_eq (cfg : Config) (opts : SegmenterOptions) (now : Nat) (data : Bytes)
    (s : SegmenterState) (h : s.stopped = false) :
    handleBox cfg opts now (BoxEvent.other data) s =
      if s.hasInit = true then { s with fragmentBuffer := s.fragmentBuffer ++ [data] } else s := by
  cases hI : s.hasInit <;> simp [handleBox, h, hI, isInitBox, BoxEvent.data]

/-- Every step only appends to the effects trace, and a step taken while the
fragment buffer is empty never appends a `storeSeg` write. -/
theorem step_effects_append (cfg : Config) (opts : SegmenterOptions) (e : Event)
    (s : SegmenterState) :
    ∃ new, (step cfg opts s e).effects = s.effects ++ new ∧
      (s.fragmentBuffer = [] → ∀ i d, Output.storeSeg i d ∉ new) := by
  by_cases hst : s.stopped = true
  · exact ⟨[], by rw [step_of_stopped cfg opts s e hst]; simp, by simp⟩
  · have h : s.stopped = false := by simpa using hst
    cases e with
    | box now b =>
      cases b with
      | ftyp data =>
        refine ⟨[], ?_, by simp⟩
        show (handleBox cfg opts now (BoxEvent.ftyp data) s).effects = _
        rw [handleBox_ftyp_eq cfg opts now data s h]
        split <;> simp
      | moov data ts =>
        by_cases hI : s.hasInit = true
        · refine ⟨[], ?_, by simp⟩
          show (handleBox cfg opts now (BoxEvent.moov data ts) s).effects = _
          rw [handleBox_moov_hasInit_eq cfg opts now data ts s h hI]
          simp
        · have hI' : s.hasInit = false := by simpa using hI
          refine ⟨[Output.storeInit ((s.initBoxes ++ [data]).flatten)], ?_, by simp⟩
          show (handleBox cfg opts now (BoxEvent.moov data ts) s).effects = _
          rw [handleBox_moov_noInit_eq cfg opts now data ts s h hI',
            handleInitBox_moov_eq]
      | moof data rw =>
        have hme : (handleBox cfg opts now (BoxEvent.moof data rw) s).effects =
            (cutState cfg now s).effects := by
          cases rw with
          | none =>
            rw [handleBox_moof_eq cfg opts now data none s h]
          | some durs =>
            rw [handleBox_moof_eq cfg opts now data (some durs) s h]
            exact (processTrafDurations_preserved (cutState cfg now s) durs).2.1
        have hse : (step cfg opts s (Event.box now (BoxEvent.moof data rw))).effects =
            (cutState cfg now s).effects := hme
        by_cases hb : s.fragmentBuffer = []
        · have hcut : cutState cfg now s = s := by unfold cutState; rw [if_pos hb]
          exact ⟨[], by rw [hse, hcut]; simp, by simp⟩
        · rcases cutState_effects cfg now s with hc | ⟨p, hp⟩
          · exact ⟨[], by rw [hse, hc]; simp, by simp⟩
          · exact ⟨[Output.storeSeg s.segmentIndex s.fragmentBuffer.flatten,
              Output.updatePlaylist p], by rw [hse, hp], fun hemp => absurd hemp hb⟩
      | mdat data =>
        refine ⟨[], ?_, by simp⟩
        show (handleBox cfg opts now (BoxEvent.mdat data) s).effects = _
        rw [handleBox_mdat_eq cfg opts now data s h]
        simp
      | other data =>
        refine ⟨[], ?_, by simp⟩
        show (handleBox cfg opts now (BoxEvent.other data) s).effects = _
        rw [handleBox_other_eq cfg opts now data s h]
        split <;> simp
    | streamEnd now =>
      by_cases hb : s.fragmentBuffer = []
      · refine ⟨[Output.parserFlush, Output.onStop], ?_, by simp⟩
        simp [step, handleEnd, h, hb]
      · obtain ⟨p, hp⟩ := (outputSegment_emitted cfg now s hb).2.2.2.2.2
        refine ⟨[Output.storeSeg s.segmentIndex s.fragmentBuffer.flatten,
          Output.updatePlaylist p, Output.parserFlush, Output.onStop], ?_,
          fun hemp => absurd hemp hb⟩
        simp [step, handleEnd, h, hb, hp]
    | streamError =>
      refine ⟨[Output.parserFlush, Output.onError], ?_, by simp⟩
      simp [step, handleError, h]
    | markDisc now =>
      by_cases hb : s.fragmentBuffer = []
      · refine ⟨[], ?_, by simp⟩
        simp [step, markDiscontinuity, h, outputSegment_empty cfg now s hb]
      · obtain ⟨p, hp⟩ := (outputSegment_emitted cfg now s hb).2.2.2.2.2
        refine ⟨[Output.storeSeg s.segmentIndex s.fragmentBuffer.flatten,
          Output.updatePlaylist p], ?_, fun hemp => absurd hemp hb⟩
        simp [step, markDiscontinuity, h, hp]
    | stop =>
      refine ⟨[Output.parserFlush], ?_, by simp⟩
      simp [step, stopSegmenter, h]

/-! ## C3 -/

/-- C3: the segment-cut policy.  (i) `outputSegment` is a no-op on an empty
fragment buffer, and (ii) no step taken with an empty buffer ever appends a
`storeSeg` write, so a segment is never emitted while the buffer is empty;
(iii) while no segment has been emitted yet, a moof arriving with a non-empty
buffer cuts a segment immediately, regardless of elapsed time; (iv) once the
first segment has been emitted, a moof arriving with a non-empty buffer cuts
exactly when the wall-clock time since `segmentStartTime` has reached the
configured target segment duration. -/
theorem C3_theorem (cfg : Config) (opts : SegmenterOptions) :
    (∀ (now : Nat) (s : SegmenterState), s.fragmentBuffer = [] →
      outputSegment cfg now s = s) ∧
    (∀ (e : Event) (s : SegmenterState), s.fragmentBuffer = [] →
      ∀ i d, Output.storeSeg i d ∉ (step cfg opts s e).effects.drop s.effects.length) ∧
    (∀ (now : Nat) (data : Bytes) (rw : Option (List (Nat × Nat))) (s : SegmenterState),
      s.stopped = false → ¬s.fragmentBuffer = [] → s.firstSegmentEmitted = false →
      (step cfg opts s (Event.box now (BoxEvent.moof data rw))).segmentIndex =
        s.segmentIndex + 1) ∧
    (∀ (now : Nat) (data : Bytes) (rw : Option (List (Nat × Nat))) (s : SegmenterState),
      s.stopped = false → ¬s.fragmentBuffer = [] → s.firstSegmentEmitted = true →
      ((step cfg opts s (Event.box now (BoxEvent.moof data rw))).segmentIndex =
          s.segmentIndex + 1 ↔
        cfg.segmentDuration * 1000 ≤ (now : ℚ) - (s.segmentStartTime : ℚ))) := by
  have hidx : ∀ (now : Nat) (data : Bytes) (rw : Option (List (Nat × Nat)))
      (s : SegmenterState), s.stopped = false →
      (step cfg opts s (Event.box now (BoxEvent.moof data rw))).segmentIndex =
        (cutState cfg now s).segmentIndex := by
    intro now data rw s h
    show (handleBox cfg opts now (BoxEvent.moof data rw) s).segmentIndex = _
    cases rw with
    | none =>
      rw [handleBox_moof_eq cfg opts now data none s h]
    | some durs =>
      rw [handleBox_moof_eq cfg opts now data (some durs) s h]
      exact (processTrafDurations_preserved (cutState cfg now s) durs).2.2.2.1
  refine ⟨fun now s hb => outputSegment_empty cfg now s hb, fun e s hb i d => ?_,
    fun now data rw s h hb hf => ?_, fun now data rw s h hb hf => ?_⟩
  · obtain ⟨new, hnew, hguard⟩ := step_effects_append cfg opts e s
    rw [hnew, List.drop_left]
    exact hguard hb i d
  · rw [hidx now data rw s h]
    unfold cutState
    rw [if_neg hb, if_pos hf]
    exact (outputSegment_emitted cfg now s hb).1
  · rw [hidx now data rw s h]
    unfold cutState
    rw [if_neg hb, if_neg (by simp [hf])]
    by_cases hcond : cfg.segmentDuration * 1000 ≤ (now : ℚ) - (s.segmentStartTime : ℚ)
    · rw [if_pos hcond]
      exact ⟨fun _ => hcond, fun _ => (outputSegment_emitted cfg now s hb).1⟩
    · rw [if_neg hcond]
      exact ⟨fun hx => absurd hx (by omega), fun hx => absurd hx hcond⟩

/-- Witness for `C3_theorem` at concrete inputs. -/
theorem C3_witness :
    ((initState ⟨none, none, none, none, none⟩ 0).fragmentBuffer = [] ∧
      outputSegment ⟨2, 5⟩ 3 (initState ⟨none, none, none, none, none⟩ 0) =
        initState ⟨none, none, none, none, none⟩ 0) ∧
    (Output.storeSeg 0 [] ∉
      (step ⟨2, 5⟩ ⟨none, none, none, none, none⟩ (initState ⟨none, none, none, none, none⟩ 0)
          (Event.streamEnd 3)).effects.drop
        (initState ⟨none, none, none, none, none⟩ 0).effects.length) ∧
    (step ⟨2, 5⟩ ⟨none, none, none, none, none⟩
        { initState ⟨none, none, none, none, none⟩ 0 with fragmentBuffer := [[1]] }
        (Event.box 1 (BoxEvent.moof [7] none))).segmentIndex =
      ({ initState ⟨none, none, none, none, none⟩ 0 with fragmentBuffer := [[1]] } :
        SegmenterState).segmentIndex + 1 ∧
    ((step ⟨2, 5⟩ ⟨none, none, none, none, none⟩
          { initState ⟨none, none, none, none, none⟩ 0 with
            fragmentBuffer := [[1]], firstSegmentEmitted := true }
          (Event.box 2000 (BoxEvent.moof [7] none))).segmentIndex =
        ({ initState ⟨none, none, none, none, none⟩ 0 with
            fragmentBuffer := [[1]], firstSegmentEmitted := true } :
          SegmenterState).segmentIndex + 1 ↔
      (2 : ℚ) * 1000 ≤ ((2000 : Nat) : ℚ) -
        ((({ initState ⟨none, none, none, none, none⟩ 0 with
            fragmentBuffer := [[1]], firstSegmentEmitted := true } :
          SegmenterState).segmentStartTime : Nat) : ℚ)) := by
  refine ⟨⟨by decide, (C3_theorem ⟨2, 5⟩ ⟨none, none, none, none, none⟩).1 3 _ (by decide)⟩,
    (C3_theorem ⟨2, 5⟩ ⟨none, none, none, none, none⟩).2.1 _ _ (by decide) 0 [],
    (C3_theorem ⟨2, 5⟩ ⟨none, none, none, none, none⟩).2.2.1 1 [7] none _ (by decide) (by decide)
      (by decide),
    (C3_theorem ⟨2, 5⟩ ⟨none, none, none, none, none⟩).2.2.2 2000 [7] none _ (by decide)
      (by decide) (by decide)⟩

/-! ## C5 -/

theorem handleEnd_preserved (cfg : Config) (now : Nat) (s : SegmenterState) :
    (handleEnd cfg now s).initVersion = s.initVersion ∧
    (handleEnd cfg now s).initSegment = s.initSegment ∧
    (handleEnd cfg now s).initBoxes = s.initBoxes ∧
    (handleEnd cfg now s).hasInit = s.hasInit ∧
    (handleEnd cfg now s).trackTimestamps = s.trackTimestamps ∧
    (handleEnd cfg now s).trackExpectedDurations = s.trackExpectedDurations ∧
    ((handleEnd cfg now s).pendingDiscontinuity = s.pendingDiscontinuity ∨
      (handleEnd cfg now s).pendingDiscontinuity = false) := by
  unfold handleEnd
  split
  · exact ⟨rfl, rfl, rfl, rfl, rfl, rfl, Or.inl rfl⟩
  · split
    · exact ⟨rfl, rfl, rfl, rfl, rfl, rfl, Or.inl rfl⟩
    · rename_i hb
      obtain ⟨_, _, _, _, p5, p6, p7, p8, _⟩ := outputSegment_preserved cfg now s
      obtain ⟨q2, q3⟩ := (outputSegment_preserved cfg now s).2
      exact ⟨p6, p7, p8, p5, q2, q3.1, Or.inr (outputSegment_emitted cfg now s hb).2.2.2.1⟩

/-- The per-step init-version dynamics: either the version is untouched, or
the event is a moov received before init while running, the assembled init
bytes differ from the previous init segment, and the version is bumped by
exactly one while `hasInit` becomes true. -/
theorem step_initVersion_cases (cfg : Config) (opts : SegmenterOptions) (e : Event)
    (s : SegmenterState) :
    (step cfg opts s e).initVersion = s.initVersion ∨
    (∃ now data ts, e = Event.box now (BoxEvent.moov data ts) ∧ s.hasInit = false ∧
      s.stopped = false ∧ initChanged opts ((s.initBoxes ++ [data]).flatten) = true ∧
      (step cfg opts s e).initVersion = s.initVersion + 1 ∧
      (step cfg opts s e).hasInit = true) := by
  by_cases hst : s.stopped = true
  · left; rw [step_of_stopped cfg opts s e hst]
  · have h : s.stopped = false := by simpa using hst
    cases e with
    | box now b =>
      cases b with
      | ftyp data =>
        left
        show (handleBox cfg opts now (BoxEvent.ftyp data) s).initVersion = _
        rw [handleBox_ftyp_eq cfg opts now data s h]
        split <;> rfl
      | moov data ts =>
        by_cases hI : s.hasInit = true
        · left
          show (handleBox cfg opts now (BoxEvent.moov data ts) s).initVersion = _
          rw [handleBox_moov_hasInit_eq cfg opts now data ts s h hI]
        · have hI' : s.hasInit = false := by simpa using hI
          have heq : step cfg opts s (Event.box now (BoxEvent.moov data ts)) =
              handleInitBox opts (BoxEvent.moov data ts) s :=
            handleBox_moov_noInit_eq cfg opts now data ts s h hI'
          cases hch : initChanged opts ((s.initBoxes ++ [data]).flatten) with
          | false =>
            have hch' : initChanged opts (s.initBoxes.flatten ++ data) = false := by
              simpa using hch
            left
            rw [heq, handleInitBox_moov_eq]
            simp [hch']
          | true =>
            have hch' : initChanged opts (s.initBoxes.flatten ++ data) = true := by
              simpa using hch
            right
            exact ⟨now, data, ts, rfl, hI', h, hch,
              by rw [heq, handleInitBox_moov_eq]; simp [hch'],
              by rw [heq, handleInitBox_moov_eq]⟩
      | moof data rw =>
        left
        show (handleBox cfg opts now (BoxEvent.moof data rw) s).initVersion = _
        cases rw with
        | none =>
          rw [handleBox_moof_eq cfg opts now data none s h]
          exact (cutState_preserved cfg now s).2.2.2.2.2.1
        | some durs =>
          rw [handleBox_moof_eq cfg opts now data (some durs) s h]
          exact ((processTrafDurations_preserved (cutState cfg now s) durs).2.2.2.2.2.1).trans
            (cutState_preserved cfg now s).2.2.2.2.2.1
      | mdat data =>
        left
        show (handleBox cfg opts now (BoxEvent.mdat data) s).initVersion = _
        rw [handleBox_mdat_eq cfg opts now data s h]
      | other data =>
        left
        show (handleBox cfg opts now (BoxEvent.other data) s).initVersion = _
        rw [handleBox_other_eq cfg opts now data s h]
        split <;> rfl
    | streamEnd now => exact Or.inl (handleEnd_preserved cfg now s).1
    | streamError =>
      left
      show (handleError s).initVersion = _
      unfold handleError
      split <;> rfl
    | markDisc now =>
      left
      show (markDiscontinuity cfg now s).initVersion = _
      unfold markDiscontinuity
      rw [if_neg (by simp [h])]
      exact (outputSegment_preserved cfg now s).2.2.2.2.2.1
    | stop =>
      left
      show (stopSegmenter s).initVersion = _
      unfold stopSegmenter
      split <;> rfl

/-- `hasInit` is monotone: once the init segment has been assembled it is
never forgotten. -/
theorem step_hasInit_mono (cfg : Config) (opts : SegmenterOptions) (e : Event)
    (s : SegmenterState) (h : s.hasInit = true) : (step cfg opts s e).hasInit = true := by
  by_cases hst : s.stopped = true
  · rw [step_of_stopped cfg opts s e hst]; exact h
  · have hs : s.stopped = false := by simpa using hst
    cases e with
    | box now b =>
      cases b with
      | ftyp data =>
        show (handleBox cfg opts now (BoxEvent.ftyp data) s).hasInit = true
        rw [handleBox_ftyp_eq cfg opts now data s hs]
        split <;> exact h
      | moov data ts =>
        show (handleBox cfg opts now (BoxEvent.moov data ts) s).hasInit = true
        rw [handleBox_moov_hasInit_eq cfg opts now data ts s hs h]
        exact h
      | moof data rw =>
        show (handleBox cfg opts now (BoxEvent.moof data rw) s).hasInit = true
        cases rw with
        | none =>
          rw [handleBox_moof_eq cfg opts now data none s hs]
          exact ((cutState_preserved cfg now s).2.2.2.2.1).trans h
        | some durs =>
          rw [handleBox_moof_eq cfg opts now data (some durs) s hs]
          exact (((processTrafDurations_preserved (cutState cfg now s) durs).2.2.2.2.1).trans
            (cutState_preserved cfg now s).2.2.2.2.1).trans h
      | mdat data =>
        show (handleBox cfg opts now (BoxEvent.mdat data) s).hasInit = true
        rw [handleBox_mdat_eq cfg opts now data s hs]
        exact h
      | other data =>
        show (handleBox cfg opts now (BoxEvent.other data) s).hasInit = true
        rw [handleBox_other_eq cfg opts now data s hs]
        split <;> exact h
    | streamEnd now => exact ((handleEnd_preserved cfg now s).2.2.2.1).trans h
    | streamError =>
      show (handleError s).hasInit = true
      unfold handleError
      split <;> exact h
    | markDisc now =>
      show (markDiscontinuity cfg now s).hasInit = true
      unfold markDiscontinuity
      rw [if_neg (by simp [hs])]
      exact ((outputSegment_preserved cfg now s).2.2.2.2.1).trans h
    | stop =>
      show (stopSegmenter s).hasInit = true
      unfold stopSegmenter
      split <;> exact h

/-- C5: init versioning.  The version starts from the supervisor-supplied
`startingInitVersion` (0 on a fresh start); it is non-decreasing at every
step; `hasInit` is monotone, and the version changes only at a moov received
before init while running — by exactly one, if and only if the assembled
`ftyp||moov` bytes differ from the supervisor-supplied `previousInitSegment`
(in particular, a fresh start with no `previousInitSegment` always
increments, so the version is at least 1 after the moov on a fresh start). -/
theorem C5_theorem (cfg : Config) (opts : SegmenterOptions) :
    (∀ now0 : Nat, (initState opts now0).initVersion = opts.startingInitVersion.getD 0) ∧
    (∀ (s : SegmenterState) (e : Event), s.initVersion ≤ (step cfg opts s e).initVersion) ∧
    (∀ (s : SegmenterState) (e : Event), s.hasInit = true →
      (step cfg opts s e).hasInit = true) ∧
    (∀ (s : SegmenterState) (e : Event),
      (step cfg opts s e).initVersion = s.initVersion ∨
      (∃ now data ts, e = Event.box now (BoxEvent.moov data ts) ∧ s.hasInit = false ∧
        s.stopped = false ∧ initChanged opts ((s.initBoxes ++ [data]).flatten) = true ∧
        (step cfg opts s e).initVersion = s.initVersion + 1 ∧
        (step cfg opts s e).hasInit = true)) ∧
    (∀ (now : Nat) (data : Bytes) (ts : Option (List (Nat × Nat))) (s : SegmenterState),
      s.hasInit = false → s.stopped = false →
      (step cfg opts s (Event.box now (BoxEvent.moov data ts))).initVersion =
        (if initChanged opts ((s.initBoxes ++ [data]).flatten) then s.initVersion + 1
         else s.initVersion)) ∧
    (∀ b : Bytes, initChanged opts b = true ↔ opts.previousInitSegment ≠ some b) := by
  refine ⟨fun now0 => rfl, fun s e => ?_, fun s e h => step_hasInit_mono cfg opts e s h,
    fun s e => step_initVersion_cases cfg opts e s, fun now data ts s hI h => ?_, fun b => ?_⟩
  · rcases step_initVersion_cases cfg opts e s with hv | ⟨_, _, _, _, _, _, _, hv, _⟩ <;> omega
  · have heq : step cfg opts s (Event.box now (BoxEvent.moov data ts)) =
        handleInitBox opts (BoxEvent.moov data ts) s :=
      handleBox_moov_noInit_eq cfg opts now data ts s h hI
    rw [heq, handleInitBox_moov_eq]
  · unfold initChanged
    cases hp : opts.previousInitSegment with
    | none => simp [hp]
    | some p =>
      simp only [hp, decide_eq_true_eq, ne_eq, Option.some.injEq]
      constructor
      · intro hne hcon
        exact hne hcon.symm
      · intro hne hcon
        exact hne hcon.symm

/-- Witness for `C5_theorem` at concrete inputs. -/
theorem C5_witness :
    (initState ⟨none, none, none, some 3, none⟩ 0).initVersion =
      (some 3 : Option Nat).getD 0 ∧
    ((initState ⟨none, none, none, some 3, none⟩ 0).hasInit = false ∧
      (initState ⟨none, none, none, some 3, none⟩ 0).stopped = false ∧
      (step ⟨2, 5⟩ ⟨none, none, none, some 3, none⟩ (initState ⟨none, none, none, some 3, none⟩ 0)
          (Event.box 1 (BoxEvent.moov [9] none))).initVersion =
        (if initChanged ⟨none, none, none, some 3, none⟩
            (((initState ⟨none, none, none, some 3, none⟩ 0).initBoxes ++ [[9]]).flatten)
          then (initState ⟨none, none, none, some 3, none⟩ 0).initVersion + 1
          else (initState ⟨none, none, none, some 3, none⟩ 0).initVersion)) ∧
    (({ initState ⟨none, none, none, some 3, none⟩ 0 with hasInit := true } :
        SegmenterState).hasInit = true ∧
      (step ⟨2, 5⟩ ⟨none, none, none, some 3, none⟩
          { initState ⟨none, none, none, some 3, none⟩ 0 with hasInit := true }
          (Event.box 2 (BoxEvent.mdat [4]))).hasInit = true) ∧
    (initChanged ⟨none, none, none, some 3, none⟩ [9] = true ↔
      (⟨none, none, none, some 3, none⟩ : SegmenterOptions).previousInitSegment ≠ some [9]) := by
  refine ⟨(C5_theorem ⟨2, 5⟩ ⟨none, none, none, some 3, none⟩).1 0,
    ⟨by decide, by decide,
      (C5_theorem ⟨2, 5⟩ ⟨none, none, none, some 3, none⟩).2.2.2.2.1 1 [9] none _
        (by decide) (by decide)⟩,
    ⟨by decide,
      (C5_theorem ⟨2, 5⟩ ⟨none, none, none, some 3, none⟩).2.2.1 _ _ (by decide)⟩,
    (C5_theorem ⟨2, 5⟩ ⟨none, none, none, some 3, none⟩).2.2.2.2.2 [9]⟩

/-! ## C6 -/

/-- C6: discontinuity lifecycle.  `markDiscontinuity` on a non-stopped
segmenter first flushes the current buffer through `outputSegment` (emitting
a possibly short segment whenever the buffer is non-empty) and then sets
`pendingDiscontinuity`; while the flag is set, the next segment actually
emitted has its index added to `discontinuityIndices` and the flag is
cleared; and a pending discontinuity is cleared without marking any segment
when the newly received init segment is byte-identical to the
supervisor-supplied previous init. -/
theorem C6_theorem (cfg : Config) (opts : SegmenterOptions) :
    (∀ (now : Nat) (s : SegmenterState), s.stopped = false →
      step cfg opts s (Event.markDisc now) =
        { outputSegment cfg now s with pendingDiscontinuity := true } ∧
      (¬s.fragmentBuffer = [] → ∃ p,
        (step cfg opts s (Event.markDisc now)).effects =
          s.effects ++ [Output.storeSeg s.segmentIndex s.fragmentBuffer.flatten,
            Output.updatePlaylist p])) ∧
    (∀ (now : Nat) (s : SegmenterState), s.pendingDiscontinuity = true →
      ¬s.fragmentBuffer = [] →
      s.segmentIndex ∈ (outputSegment cfg now s).discontinuityIndices ∧
      (outputSegment cfg now s).pendingDiscontinuity = false) ∧
    (∀ (now : Nat) (data : Bytes) (ts : Option (List (Nat × Nat))) (s : SegmenterState),
      s.stopped = false → s.hasInit = false →
      opts.previousInitSegment = some ((s.initBoxes ++ [data]).flatten) →
      (step cfg opts s (Event.box now (BoxEvent.moov data ts))).pendingDiscontinuity = false ∧
      (step cfg opts s (Event.box now (BoxEvent.moov data ts))).discontinuityIndices =
        s.discontinuityIndices) := by
  refine ⟨fun now s h => ?_, fun now s hp hb => ?_, fun now data ts s h hI hprev => ?_⟩
  · have heq : step cfg opts s (Event.markDisc now) =
        { outputSegment cfg now s with pendingDiscontinuity := true } := by
      show markDiscontinuity cfg now s = _
      unfold markDiscontinuity
      rw [if_neg (by simp [h])]
    refine ⟨heq, fun hb => ?_⟩
    obtain ⟨p, hp⟩ := (outputSegment_emitted cfg now s hb).2.2.2.2.2
    exact ⟨p, by rw [heq]; exact hp⟩
  · obtain ⟨_, _, _, h4, h5, _⟩ := outputSegment_emitted cfg now s hb
    refine ⟨?_, h4⟩
    rw [h5, if_pos hp]
    exact mem_setAdd_self s.discontinuityIndices s.segmentIndex
  · have hch : initChanged opts ((s.initBoxes ++ [data]).flatten) = false := by
      unfold initChanged
      rw [hprev]
      simp
    have heq : step cfg opts s (Event.box now (BoxEvent.moov data ts)) =
        handleInitBox opts (BoxEvent.moov data ts) s :=
      handleBox_moov_noInit_eq cfg opts now data ts s h hI
    have hch' : initChanged opts (s.initBoxes.flatten ++ data) = false := by simpa using hch
    rw [heq, handleInitBox_moov_eq]
    exact ⟨by simp [hch'], rfl⟩

/-- Witness for `C6_theorem` at concrete inputs. -/
theorem C6_witness :
    ((initState ⟨none, none, none, none, none⟩ 0).stopped = false ∧
      step ⟨2, 5⟩ ⟨none, none, none, none, none⟩ (initState ⟨none, none, none, none, none⟩ 0)
          (Event.markDisc 3) =
        { outputSegment ⟨2, 5⟩ 3 (initState ⟨none, none, none, none, none⟩ 0) with
          pendingDiscontinuity := true }) ∧
    (({ initState ⟨none, none, none, none, none⟩ 0 with
          pendingDiscontinuity := true, fragmentBuffer := [[2]] } :
        SegmenterState).pendingDiscontinuity = true ∧
      ({ initState ⟨none, none, none, none, none⟩ 0 with
          pendingDiscontinuity := true, fragmentBuffer := [[2]] } :
        SegmenterState).segmentIndex ∈
        (outputSegment ⟨2, 5⟩ 4
          { initState ⟨none, none, none, none, none⟩ 0 with
            pendingDiscontinuity := true, fragmentBuffer := [[2]] }).discontinuityIndices ∧
      (outputSegment ⟨2, 5⟩ 4
          { initState ⟨none, none, none, none, none⟩ 0 with
            pendingDiscontinuity := true, fragmentBuffer := [[2]] }).pendingDiscontinuity =
        false) ∧
    ((step ⟨2, 5⟩ ⟨none, some true, some [7], none, none⟩
        (initState ⟨none, some true, some [7], none, none⟩ 0)
        (Event.box 1 (BoxEvent.moov [7] none))).pendingDiscontinuity = false ∧
      (step ⟨2, 5⟩ ⟨none, some true, some [7], none, none⟩
        (initState ⟨none, some true, some [7], none, none⟩ 0)
        (Event.box 1 (BoxEvent.moov [7] none))).discontinuityIndices =
        (initState ⟨none, some true, some [7], none, none⟩ 0).discontinuityIndices) := by
  have h2 := (C6_theorem (⟨2, 5⟩ : Config) ⟨none, none, none, none, none⟩).2.1 4
    { initState ⟨none, none, none, none, none⟩ 0 with
      pendingDiscontinuity := true, fragmentBuffer := [[2]] } (by decide) (by decide)
  exact ⟨⟨by decide,
      ((C6_theorem ⟨2, 5⟩ ⟨none, none, none, none, none⟩).1 3 _ (by decide)).1⟩,
    ⟨by decide, h2.1, h2.2⟩,
    (C6_theorem ⟨2, 5⟩ ⟨none, some true, some [7], none, none⟩).2.2 1 [7] none _
      (by decide) (by decide) (by decide)⟩

/-! ## C4 -/

theorem foldl_if_max (f : Nat → ℚ) : ∀ (l : List Nat) (init : ℚ),
    l.foldl (fun m i => if f i > m then f i else m) init = (l.map f).foldl max init
  | [], _ => rfl
  | a :: l, init => by
    rw [List.foldl_cons, List.map_cons, List.foldl_cons, foldl_if_max f l]
    congr 1
    rcases lt_or_le init (f a) with h | h
    · simp [if_pos h, sup_eq_right.2 h.le]
    · simp [if_neg (not_lt.2 h), sup_eq_left.2 h]

theorem mem_window_iff (a n i : Nat) :
    i ∈ (List.range n).map (fun j => a + j) ↔ a ≤ i ∧ i < a + n := by
  simp only [List.mem_map, List.mem_range]
  constructor
  · rintro ⟨j, hj, rfl⟩
    omega
  · rintro ⟨h1, h2⟩
    exact ⟨i - a, by omega, by omega⟩

theorem window_sorted (a n : Nat) :
    List.Sorted (· < ·) ((List.range n).map (fun j => a + j)) := by
  refine List.Pairwise.map _ (fun x y h => ?_) (List.sorted_lt_range n)
  omega

/-- C4: every generated playlist lists exactly the indices of the window
`[max 0 (nextIndex - maxSegments), nextIndex)` in strictly increasing order,
sets `MEDIA-SEQUENCE` to the window start and carries the current init
version; each entry's discontinuity marker reflects membership of its index
in `discontinuityIndices`, a marked entry repeats an `EXT-X-MAP` line with
the current init version, each `EXTINF` is the recorded duration (falling
back to the configured target); and `TARGETDURATION` is the ceiling of the
maximum `EXTINF` over the window, floored at the configured target. -/
theorem C4_theorem (cfg : Config) (s : SegmenterState) :
    (generatePlaylist cfg s).mediaSequence = s.segmentIndex - cfg.maxSegments ∧
    (generatePlaylist cfg s).initVersion = s.initVersion ∧
    List.Sorted (· < ·) ((generatePlaylist cfg s).entries.map PlaylistEntry.index) ∧
    (∀ i : Nat, (∃ e ∈ (generatePlaylist cfg s).entries, e.index = i) ↔
      (s.segmentIndex - cfg.maxSegments ≤ i ∧ i < s.segmentIndex)) ∧
    (∀ e ∈ (generatePlaylist cfg s).entries,
      e.disc = decide (e.index ∈ s.discontinuityIndices) ∧
      e.mapVersion = (if e.disc = true then some s.initVersion else none) ∧
      e.extinf = (alGet s.segmentDurations e.index).getD cfg.segmentDuration) ∧
    (generatePlaylist cfg s).targetDuration =
      ⌈(((List.range (s.segmentIndex - (s.segmentIndex - cfg.maxSegments))).map
            (fun j => (s.segmentIndex - cfg.maxSegments) + j)).map
          (fun i => (alGet s.segmentDurations i).getD cfg.segmentDuration)).foldl
        max cfg.segmentDuration⌉ := by
  have hsub : s.segmentIndex - cfg.maxSegments ≤ s.segmentIndex := Nat.sub_le _ _
  have hentries : (generatePlaylist cfg s).entries =
      ((List.range (s.segmentIndex - (s.segmentIndex - cfg.maxSegments))).map
        (fun j => (s.segmentIndex - cfg.maxSegments) + j)).map
        (fun i => ⟨decide (i ∈ s.discontinuityIndices),
          if decide (i ∈ s.discontinuityIndices) = true then some s.initVersion else none,
          (alGet s.segmentDurations i).getD cfg.segmentDuration, i⟩) := rfl
  refine ⟨rfl, rfl, ?_, ?_, ?_, ?_⟩
  · rw [hentries, List.map_map]
    simpa [Function.comp] using window_sorted (s.segmentIndex - cfg.maxSegments)
      (s.segmentIndex - (s.segmentIndex - cfg.maxSegments))
  · intro i
    rw [hentries]
    constructor
    · rintro ⟨e, he, rfl⟩
      obtain ⟨j, hj, rfl⟩ := List.mem_map.1 he
      have hjw := (mem_window_iff (s.segmentIndex - cfg.maxSegments)
        (s.segmentIndex - (s.segmentIndex - cfg.maxSegments)) j).1 hj
      dsimp only
      omega
    · rintro ⟨h1, h2⟩
      refine ⟨_, List.mem_map_of_mem _
        ((mem_window_iff (s.segmentIndex - cfg.maxSegments)
          (s.segmentIndex - (s.segmentIndex - cfg.maxSegments)) i).2 ⟨h1, by omega⟩), rfl⟩
  · intro e he
    rw [hentries] at he
    obtain ⟨j, _, rfl⟩ := List.mem_map.1 he
    exact ⟨rfl, rfl, rfl⟩
  · show (⌈((List.range (s.segmentIndex - (s.segmentIndex - cfg.maxSegments))).map
        (fun j => (s.segmentIndex - cfg.maxSegments) + j)).foldl
        (fun m i => if (alGet s.segmentDurations i).getD cfg.segmentDuration > m
          then (alGet s.segmentDurations i).getD cfg.segmentDuration else m)
        cfg.segmentDuration⌉ : Int) = _
    rw [foldl_if_max]

/-! ## C10 -/

/-- C10: a window index with no recorded media duration (for example an index
inherited from a previous segmenter instance after a handoff with
`startingSegmentIndex > 0`) is listed with an `EXTINF` equal to the
configured target segment duration, and the whole playlist — including the
`TARGETDURATION` maximum — is exactly the one obtained by recording the
target duration for that index. -/
theorem C10_theorem (cfg : Config) (s : SegmenterState) (i : Nat)
    (h1 : s.segmentIndex - cfg.maxSegments ≤ i) (h2 : i < s.segmentIndex)
    (h3 : alGet s.segmentDurations i = none) :
    (∃ e ∈ (generatePlaylist cfg s).entries, e.index = i ∧ e.extinf = cfg.segmentDuration) ∧
    generatePlaylist cfg
        { s with segmentDurations := alSet s.segmentDurations i cfg.segmentDuration } =
      generatePlaylist cfg s := by
  have hget : ∀ j, (alGet (alSet s.segmentDurations i cfg.segmentDuration) j).getD
      cfg.segmentDuration = (alGet s.segmentDurations j).getD cfg.segmentDuration := by
    intro j
    by_cases hj : j = i
    · subst hj
      rw [alGet_alSet_self, h3]
      rfl
    · rw [alGet_alSet_ne _ _ _ _ (fun hh => hj hh.symm)]
  constructor
  · have hentries : (generatePlaylist cfg s).entries =
        ((List.range (s.segmentIndex - (s.segmentIndex - cfg.maxSegments))).map
          (fun j => (s.segmentIndex - cfg.maxSegments) + j)).map
          (fun j => ⟨decide (j ∈ s.discontinuityIndices),
            if decide (j ∈ s.discontinuityIndices) = true then some s.initVersion else none,
            (alGet s.segmentDurations j).getD cfg.segmentDuration, j⟩) := rfl
    rw [hentries]
    refine ⟨_, List.mem_map_of_mem _
      ((mem_window_iff (s.segmentIndex - cfg.maxSegments)
        (s.segmentIndex - (s.segmentIndex - cfg.maxSegments)) i).2 ⟨h1, by omega⟩), rfl, ?_⟩
    dsimp only
    rw [h3]
    rfl
  · unfold generatePlaylist
    simp only [hget]

/-- Witness for `C10_theorem` at concrete inputs. -/
theorem C10_witness :
    (({ initState ⟨none, none, none, none, some 3⟩ 0 with segmentIndex := 3 } :
        SegmenterState).segmentIndex - (5 : Nat) ≤ 1 ∧
      1 < ({ initState ⟨none, none, none, none, some 3⟩ 0 with segmentIndex := 3 } :
        SegmenterState).segmentIndex ∧
      alGet ({ initState ⟨none, none, none, none, some 3⟩ 0 with segmentIndex := 3 } :
        SegmenterState).segmentDurations 1 = none) ∧
    (∃ e ∈ (generatePlaylist ⟨2, 5⟩
        { initState ⟨none, none, none, none, some 3⟩ 0 with segmentIndex := 3 }).entries,
      e.index = 1 ∧ e.extinf = (2 : ℚ)) := by
  refine ⟨⟨by decide, by decide, by decide⟩, ?_⟩
  exact (C10_theorem ⟨2, 5⟩
    { initState ⟨none, none, none, none, some 3⟩ 0 with segmentIndex := 3 } 1
    (by decide) (by decide) (by decide)).1

/-! ## C9 -/

/-- A media-fragment ingest event: a `moof` or `mdat` box arriving. -/
def IsFragmentEvent : Event → Prop
  | Event.box _ (BoxEvent.moof _ _) => True
  | Event.box _ (BoxEvent.mdat _) => True
  | _ => False

theorem step_fragment_preserved (cfg : Config) (opts : SegmenterOptions) (e : Event)
    (s : SegmenterState) (hf : IsFragmentEvent e) :
    (step cfg opts s e).hasInit = s.hasInit ∧
    (step cfg opts s e).initSegment = s.initSegment ∧
    (step cfg opts s e).initVersion = s.initVersion := by
  by_cases hst : s.stopped = true
  · rw [step_of_stopped cfg opts s e hst]
    exact ⟨rfl, rfl, rfl⟩
  · have h : s.stopped = false := by simpa using hst
    cases e with
    | box now b =>
      cases b with
      | moof data rw =>
        have hc := cutState_preserved cfg now s
        show (handleBox cfg opts now (BoxEvent.moof data rw) s).hasInit = _ ∧
          (handleBox cfg opts now (BoxEvent.moof data rw) s).initSegment = _ ∧
          (handleBox cfg opts now (BoxEvent.moof data rw) s).initVersion = _
        cases rw with
        | none =>
          rw [handleBox_moof_eq cfg opts now data none s h]
          exact ⟨hc.2.2.2.2.1, hc.2.2.2.2.2.2.1, hc.2.2.2.2.2.1⟩
        | some durs =>
          rw [handleBox_moof_eq cfg opts now data (some durs) s h]
          have hp := processTrafDurations_preserved (cutState cfg now s) durs
          exact ⟨(hp.2.2.2.2.1).trans hc.2.2.2.2.1,
            (hp.2.2.2.2.2.2.1).trans hc.2.2.2.2.2.2.1,
            (hp.2.2.2.2.2.1).trans hc.2.2.2.2.2.1⟩
      | mdat data =>
        show (handleBox cfg opts now (BoxEvent.mdat data) s).hasInit = _ ∧
          (handleBox cfg opts now (BoxEvent.mdat data) s).initSegment = _ ∧
          (handleBox cfg opts now (BoxEvent.mdat data) s).initVersion = _
        rw [handleBox_mdat_eq cfg opts now data s h]
        exact ⟨rfl, rfl, rfl⟩
      | ftyp data => exact absurd hf (by simp [IsFragmentEvent])
      | moov data ts => exact absurd hf (by simp [IsFragmentEvent])
      | other data => exact absurd hf (by simp [IsFragmentEvent])
    | streamEnd now => exact absurd hf (by simp [IsFragmentEvent])
    | streamError => exact absurd hf (by simp [IsFragmentEvent])
    | markDisc now => exact absurd hf (by simp [IsFragmentEvent])
    | stop => exact absurd hf (by simp [IsFragmentEvent])

theorem run_fragments_preserved (cfg : Config) (opts : SegmenterOptions) :
    ∀ (rest : List Event), (∀ e ∈ rest, IsFragmentEvent e) → ∀ s0 : SegmenterState,
      (run cfg opts s0 rest).initSegment = s0.initSegment ∧
      (run cfg opts s0 rest).initVersion = s0.initVersion ∧
      ∃ new, (run cfg opts s0 rest).effects = s0.effects ++ new := by
  intro rest
  induction rest with
  | nil => exact fun _ s0 => ⟨rfl, rfl, [], by simp [run]⟩
  | cons e es ih =>
    intro hall s0
    have he : IsFragmentEvent e := hall e (by simp)
    have hstep := step_fragment_preserved cfg opts e s0 he
    obtain ⟨new0, hnew0, _⟩ := step_effects_append cfg opts e s0
    have hrun : run cfg opts s0 (e :: es) = run cfg opts (step cfg opts s0 e) es := rfl
    obtain ⟨r1, r2, new1, hnew1⟩ := ih (fun x hx => hall x (by simp [hx]))
      (step cfg opts s0 e)
    rw [hrun]
    exact ⟨r1.trans hstep.2.1, r2.trans hstep.2.2, new0 ++ new1,
      by rw [hnew1, hnew0, List.append_assoc]⟩

/-- The segmenter state after ingesting a well-formed stream prefix — one
`ftyp`, then the `moov`, then media-fragment events. -/
def wfRun (cfg : Config) (opts : SegmenterOptions) (now0 t1 t2 : Nat) (fb mb : Bytes)
    (ts : Option (List (Nat × Nat))) (rest : List Event) : SegmenterState :=
  run cfg opts (initState opts now0)
    (Event.box t1 (BoxEvent.ftyp fb) :: Event.box t2 (BoxEvent.moov mb ts) :: rest)

/-- C9: for every ingest stream whose boxes arrive in the well-formed order
`ftyp`, `moov`, then moof/mdat fragments (and any supervisor-conformant
options: fresh start, or a handoff carrying an init version ≥ 1), after the
moov the init segment `ftyp || moov` is recorded in the state with version at
least 1, the very first store write is `storeInitSegment`, and every
`storeSegment` write is preceded by the `storeInitSegment` write. -/
theorem C9_theorem (cfg : Config) (opts : SegmenterOptions) (now0 t1 t2 : Nat) (fb mb : Bytes)
    (ts : Option (List (Nat × Nat))) (rest : List Event)
    (hrest : ∀ e ∈ rest, IsFragmentEvent e)
    (hopts : opts.previousInitSegment = none ∨ 1 ≤ opts.startingInitVersion.getD 0) :
    (wfRun cfg opts now0 t1 t2 fb mb ts rest).initSegment = some (fb ++ mb) ∧
    1 ≤ (wfRun cfg opts now0 t1 t2 fb mb ts rest).initVersion ∧
    (wfRun cfg opts now0 t1 t2 fb mb ts rest).effects.head? =
      some (Output.storeInit (fb ++ mb)) ∧
    (∀ n i d, (wfRun cfg opts now0 t1 t2 fb mb ts rest).effects.get? n =
        some (Output.storeSeg i d) →
      ∃ m, m < n ∧ (wfRun cfg opts now0 t1 t2 fb mb ts rest).effects.get? m =
        some (Output.storeInit (fb ++ mb))) := by
  have hs1 : step cfg opts (initState opts now0) (Event.box t1 (BoxEvent.ftyp fb)) =
      { initState opts now0 with initBoxes := [fb] } := by
    show handleBox cfg opts t1 (BoxEvent.ftyp fb) (initState opts now0) = _
    rw [handleBox_ftyp_eq cfg opts t1 fb (initState opts now0) rfl]
    rw [if_neg (by simp [initState])]
    simp [initState]
  have hflat : (([fb] : List Bytes) ++ [mb]).flatten = fb ++ mb := by simp
  have hs2 : step cfg opts { initState opts now0 with initBoxes := [fb] }
      (Event.box t2 (BoxEvent.moov mb ts)) =
      handleInitBox opts (BoxEvent.moov mb ts) { initState opts now0 with initBoxes := [fb] } :=
    handleBox_moov_noInit_eq cfg opts t2 mb ts _ rfl rfl
  have hrw : wfRun cfg opts now0 t1 t2 fb mb ts rest =
      run cfg opts (handleInitBox opts (BoxEvent.moov mb ts)
        { initState opts now0 with initBoxes := [fb] }) rest := by
    unfold wfRun
    show run cfg opts (step cfg opts (step cfg opts (initState opts now0)
      (Event.box t1 (BoxEvent.ftyp fb))) (Event.box t2 (BoxEvent.moov mb ts))) rest = _
    rw [hs1, hs2]
  obtain ⟨r1, r2, new, hnew⟩ := run_fragments_preserved cfg opts rest hrest
    (handleInitBox opts (BoxEvent.moov mb ts) { initState opts now0 with initBoxes := [fb] })
  have h2seg : (handleInitBox opts (BoxEvent.moov mb ts)
      { initState opts now0 with initBoxes := [fb] }).initSegment = some (fb ++ mb) := by
    rw [handleInitBox_moov_eq]
    simp [initState]
  have h2eff : (handleInitBox opts (BoxEvent.moov mb ts)
      { initState opts now0 with initBoxes := [fb] }).effects =
      [Output.storeInit (fb ++ mb)] := by
    rw [handleInitBox_moov_eq]
    simp [initState]
  have h2ver : 1 ≤ (handleInitBox opts (BoxEvent.moov mb ts)
      { initState opts now0 with initBoxes := [fb] }).initVersion := by
    rw [handleInitBox_moov_eq]
    rcases hopts with hnone | hge
    · have : initChanged opts ((({ initState opts now0 with initBoxes := [fb] } :
          SegmenterState).initBoxes ++ [mb]).flatten) = true := by
        unfold initChanged
        rw [hnone]
      rw [this]
      simp
    · split
      · simp only [initState]
        omega
      · simp only [initState]
        omega
  have heff : (wfRun cfg opts now0 t1 t2 fb mb ts rest).effects =
      Output.storeInit (fb ++ mb) :: new := by
    rw [hrw, hnew, h2eff]
    rfl
  refine ⟨by rw [hrw, r1, h2seg], by rw [hrw, r2]; exact h2ver, by rw [heff]; rfl, ?_⟩
  intro n i d hn
  refine ⟨0, ?_, by rw [heff]; rfl⟩
  rcases n with _ | n
  · rw [heff] at hn
    simp at hn
  · omega

/-- Witness for `C9_theorem` at concrete inputs. -/
theorem C9_witness :
    (∀ e ∈ [Event.box 3 (BoxEvent.moof [9] (some [(1, 5)])),
        Event.box 4 (BoxEvent.mdat [8])], IsFragmentEvent e) ∧
    ((⟨none, none, none, none, none⟩ : SegmenterOptions).previousInitSegment = none ∨
      1 ≤ (⟨none, none, none, none, none⟩ : SegmenterOptions).startingInitVersion.getD 0) ∧
    (wfRun ⟨2, 5⟩ ⟨none, none, none, none, none⟩ 0 1 2 [10] [20] (some [(1, 90000)])
        [Event.box 3 (BoxEvent.moof [9] (some [(1, 5)])),
         Event.box 4 (BoxEvent.mdat [8])]).initSegment = some ([10] ++ [20]) ∧
    1 ≤ (wfRun ⟨2, 5⟩ ⟨none, none, none, none, none⟩ 0 1 2 [10] [20] (some [(1, 90000)])
        [Event.box 3 (BoxEvent.moof [9] (some [(1, 5)])),
         Event.box 4 (BoxEvent.mdat [8])]).initVersion ∧
    (wfRun ⟨2, 5⟩ ⟨none, none, none, none, none⟩ 0 1 2 [10] [20] (some [(1, 90000)])
        [Event.box 3 (BoxEvent.moof [9] (some [(1, 5)])),
         Event.box 4 (BoxEvent.mdat [8])]).effects.head? =
      some (Output.storeInit ([10] ++ [20])) := by
  have h := C9_theorem ⟨2, 5⟩ ⟨none, none, none, none, none⟩ 0 1 2 [10] [20]
    (some [(1, 90000)])
    [Event.box 3 (BoxEvent.moof [9] (some [(1, 5)])), Event.box 4 (BoxEvent.mdat [8])]
    (by intro e he; simp at he; rcases he with rfl | rfl <;> simp [IsFragmentEvent])
    (Or.inl rfl)
  exact ⟨by intro e he; simp at he; rcases he with rfl | rfl <;> simp [IsFragmentEvent],
    Or.inl rfl, h.1, h.2.1, h.2.2.1⟩

/-! ## Fine-grained lemmas about the sanity-check loop -/

theorem sanityLoop_cons (s : SegmenterState) (td : Nat × Nat) (rest : List (Nat × Nat)) :
    sanityLoop s (td :: rest) = sanityLoop (sanityStep s td) rest := rfl

theorem sanityLoop_append (s : SegmenterState) (l1 l2 : List (Nat × Nat)) :
    sanityLoop s (l1 ++ l2) = sanityLoop (sanityLoop s l1) l2 :=
  List.foldl_append _ _ _ _

theorem sanityStep_get_ne (s : SegmenterState) (k d t : Nat) (hk : k ≠ t) :
    alGet (sanityStep s (k, d)).trackTimestamps t = alGet s.trackTimestamps t ∧
    alGet (sanityStep s (k, d)).trackExpectedDurations t = alGet s.trackExpectedDurations t ∧
    alGet (sanityStep s (k, d)).segmentTrackDurations t = alGet s.segmentTrackDurations t := by
  unfold sanityStep
  dsimp only
  split
  · exact ⟨rfl, rfl, rfl⟩
  · split
    · split
      · split
        · exact ⟨alGet_alSet_ne _ _ _ _ hk, rfl, alGet_alSet_ne _ _ _ _ hk⟩
        · exact ⟨rfl, rfl, alGet_alSet_ne _ _ _ _ hk⟩
      · exact ⟨rfl, rfl, alGet_alSet_ne _ _ _ _ hk⟩
    · exact ⟨rfl, alGet_alSet_ne _ _ _ _ hk, alGet_alSet_ne _ _ _ _ hk⟩

theorem sanityLoop_get_ne : ∀ (durs : List (Nat × Nat)) (s : SegmenterState) (t : Nat),
    (∀ p ∈ durs, p.1 ≠ t) →
    alGet (sanityLoop s durs).trackTimestamps t = alGet s.trackTimestamps t ∧
    alGet (sanityLoop s durs).trackExpectedDurations t = alGet s.trackExpectedDurations t ∧
    alGet (sanityLoop s durs).segmentTrackDurations t = alGet s.segmentTrackDurations t := by
  intro durs
  induction durs with
  | nil => exact fun s t _ => ⟨rfl, rfl, rfl⟩
  | cons td rest ih =>
    intro s t hall
    obtain ⟨k, d⟩ := td
    have hk : k ≠ t := hall (k, d) (by simp)
    have hstep := sanityStep_get_ne s k d t hk
    have hrest := ih (sanityStep s (k, d)) t (fun p hp => hall p (by simp [hp]))
    rw [sanityLoop_cons]
    exact ⟨hrest.1.trans hstep.1, hrest.2.1.trans hstep.2.1, hrest.2.2.trans hstep.2.2⟩

theorem sanityStep_expected_stable (s : SegmenterState) (k d t b : Nat)
    (h : alGet s.trackExpectedDurations t = some b) :
    alGet (sanityStep s (k, d)).trackExpectedDurations t = some b := by
  by_cases hk : k = t
  · subst hk
    unfold sanityStep
    dsimp only
    split
    · exact h
    · split
      · split
        · split
          · exact h
          · exact h
        · exact h
      · rename_i heq
        rw [heq] at h
        exact absurd h (by simp)
  · exact (sanityStep_get_ne s k d t hk).2.1.trans h

theorem sanityLoop_expected_stable : ∀ (durs : List (Nat × Nat)) (s : SegmenterState)
    (t b : Nat), alGet s.trackExpectedDurations t = some b →
    alGet (sanityLoop s durs).trackExpectedDurations t = some b := by
  intro durs
  induction durs with
  | nil => exact fun s t b h => h
  | cons td rest ih =>
    intro s t b h
    obtain ⟨k, d⟩ := td
    rw [sanityLoop_cons]
    exact ih (sanityStep s (k, d)) t b (sanityStep_expected_stable s k d t b h)

theorem sanityStep_clamp_eq (s : SegmenterState) (k d e : Nat) (c : Int)
    (hd : ¬d = 0)
    (he : alGet s.trackExpectedDurations k = some e)
    (hcond : e ≠ 0 ∧ (d > e * DURATION_SANITY_RATIO ∨ d < e / DURATION_SANITY_RATIO))
    (hc : alGet s.trackTimestamps k = some c) :
    sanityStep s (k, d) =
      { s with
        trackTimestamps := alSet s.trackTimestamps k (c - (d : Int) + (e : Int))
        segmentTrackDurations := alSet s.segmentTrackDurations k
          ((alGet s.segmentTrackDurations k).getD 0 + e) } := by
  unfold sanityStep
  dsimp only
  rw [if_neg hd]
  split
  · rename_i expected heq
    have hee : expected = e := by
      rw [heq] at he
      exact (Option.some.injEq _ _ ▸ he)
    subst hee
    rw [if_pos hcond]
    split
    · rename_i current heq2
      have hcc : current = c := by
        rw [heq2] at hc
        exact (Option.some.injEq _ _ ▸ hc)
      subst hcc
      rfl
    · rename_i heq2
      rw [heq2] at hc
      exact absurd hc (by simp)
  · rename_i heq
    rw [heq] at he
    exact absurd he (by simp)

theorem sanityStep_anchor_eq (s : SegmenterState) (k d : Nat) (hd : ¬d = 0)
    (he : alGet s.trackExpectedDurations k = none) :
    sanityStep s (k, d) =
      { s with
        trackExpectedDurations := alSet s.trackExpectedDurations k d
        segmentTrackDurations := alSet s.segmentTrackDurations k
          ((alGet s.segmentTrackDurations k).getD 0 + d) } := by
  unfold sanityStep
  dsimp only
  rw [if_neg hd]
  split
  · rename_i expected heq
    rw [heq] at he
    exact absurd he (by simp)
  · rfl

theorem sanityStep_trackTimestamps_cases (s : SegmenterState) (k d : Nat) :
    (sanityStep s (k, d)).trackTimestamps = s.trackTimestamps ∨
    ∃ (c : Int) (e : Nat), alGet s.trackTimestamps k = some c ∧ e ≠ 0 ∧
      (sanityStep s (k, d)).trackTimestamps =
        alSet s.trackTimestamps k (c - (d : Int) + (e : Int)) := by
  unfold sanityStep
  dsimp only
  split
  · exact Or.inl rfl
  · split
    · rename_i expected heq
      split
      · rename_i hcond
        split
        · rename_i current heq2
          exact Or.inr ⟨current, expected, heq2, hcond.1, rfl⟩
        · exact Or.inl rfl
      · exact Or.inl rfl
    · exact Or.inl rfl

theorem sanityLoop_mono : ∀ (durs : List (Nat × Nat)) (s : SegmenterState) (t : Nat)
    (v c : Int), alGet s.trackTimestamps t = some c → v + tdSum t durs ≤ c →
    ∃ w, alGet (sanityLoop s durs).trackTimestamps t = some w ∧ v ≤ w := by
  intro durs
  induction durs with
  | nil =>
    intro s t v c hc hle
    exact ⟨c, hc, by simpa [tdSum] using hle⟩
  | cons td rest ih =>
    intro s t v c hc hle
    obtain ⟨k, d⟩ := td
    have htd : tdSum t ((k, d) :: rest) = (if k = t then (d : Int) else 0) + tdSum t rest := rfl
    rw [htd] at hle
    have hstep : ∃ c', alGet (sanityStep s (k, d)).trackTimestamps t = some c' ∧
        v + tdSum t rest ≤ c' := by
      by_cases hk : k = t
      · subst hk
        rw [if_pos rfl] at hle
        rcases sanityStep_trackTimestamps_cases s k d with hcase | ⟨c0, e0, hc0, he0, hcase⟩
        · have hdn : (0 : Int) ≤ (d : Int) := Int.ofNat_nonneg d
          exact ⟨c, by rw [hcase]; exact hc, by omega⟩
        · have hcc : c0 = c := by
            rw [hc0] at hc
            exact (Option.some.injEq _ _ ▸ hc)
          subst hcc
          have hen : (0 : Int) ≤ (e0 : Int) := Int.ofNat_nonneg e0
          exact ⟨c0 - (d : Int) + (e0 : Int),
            by rw [hcase]; exact alGet_alSet_self _ _ _, by omega⟩
      · rw [if_neg hk] at hle
        rcases sanityStep_trackTimestamps_cases s k d with hcase | ⟨c0, e0, hc0, he0, hcase⟩
        · exact ⟨c, by rw [hcase]; exact hc, by omega⟩
        · exact ⟨c, by rw [hcase]; exact (alGet_alSet_ne _ _ _ _ hk).trans hc, by omega⟩
    obtain ⟨c', hc', hle'⟩ := hstep
    rw [sanityLoop_cons]
    exact ih (sanityStep s (k, d)) t v c' hc' hle'

theorem processTrafDurations_mono (s : SegmenterState) (durs : List (Nat × Nat)) (t : Nat)
    (v : Int) (h : alGet s.trackTimestamps t = some v) :
    ∃ w, alGet (processTrafDurations s durs).trackTimestamps t = some w ∧ v ≤ w := by
  unfold processTrafDurations
  exact sanityLoop_mono durs _ t v (v + tdSum t durs)
    (advanceCounters_get_some durs s.trackTimestamps t v h) (le_refl _)

/-- At every step the per-track timestamp counters never decrease. -/
theorem step_counter_mono (cfg : Config) (opts : SegmenterOptions) (e : Event)
    (s : SegmenterState) (t : Nat) (v : Int) (h : alGet s.trackTimestamps t = some v) :
    ∃ w, alGet (step cfg opts s e).trackTimestamps t = some w ∧ v ≤ w := by
  by_cases hst : s.stopped = true
  · exact ⟨v, by rw [step_of_stopped cfg opts s e hst]; exact h, le_refl v⟩
  · have hs : s.stopped = false := by simpa using hst
    cases e with
    | box now b =>
      cases b with
      | ftyp data =>
        refine ⟨v, ?_, le_refl v⟩
        show alGet (handleBox cfg opts now (BoxEvent.ftyp data) s).trackTimestamps t = _
        rw [handleBox_ftyp_eq cfg opts now data s hs]
        split <;> exact h
      | moov data ts =>
        refine ⟨v, ?_, le_refl v⟩
        show alGet (handleBox cfg opts now (BoxEvent.moov data ts) s).trackTimestamps t = _
        by_cases hI : s.hasInit = true
        · rw [handleBox_moov_hasInit_eq cfg opts now data ts s hs hI]
          exact h
        · rw [handleBox_moov_noInit_eq cfg opts now data ts s hs (by simpa using hI),
            handleInitBox_moov_eq]
          exact h
      | moof data rw =>
        have hcv : alGet (cutState cfg now s).trackTimestamps t = some v := by
          rw [(cutState_preserved cfg now s).2.1]
          exact h
        cases rw with
        | none =>
          refine ⟨v, ?_, le_refl v⟩
          show alGet (handleBox cfg opts now (BoxEvent.moof data none) s).trackTimestamps t = _
          rw [handleBox_moof_eq cfg opts now data none s hs]
          exact hcv
        | some durs =>
          obtain ⟨w, hw, hvw⟩ := processTrafDurations_mono (cutState cfg now s) durs t v hcv
          refine ⟨w, ?_, hvw⟩
          show alGet (handleBox cfg opts now
            (BoxEvent.moof data (some durs)) s).trackTimestamps t = _
          rw [handleBox_moof_eq cfg opts now data (some durs) s hs]
          exact hw
      | mdat data =>
        refine ⟨v, ?_, le_refl v⟩
        show alGet (handleBox cfg opts now (BoxEvent.mdat data) s).trackTimestamps t = _
        rw [handleBox_mdat_eq cfg opts now data s hs]
        exact h
      | other data =>
        refine ⟨v, ?_, le_refl v⟩
        show alGet (handleBox cfg opts now (BoxEvent.other data) s).trackTimestamps t = _
        rw [handleBox_other_eq cfg opts now data s hs]
        split <;> exact h
    | streamEnd now =>
      refine ⟨v, ?_, le_refl v⟩
      rw [show (step cfg opts s (Event.streamEnd now)).trackTimestamps = s.trackTimestamps from
        (handleEnd_preserved cfg now s).2.2.2.2.1]
      exact h
    | streamError =>
      refine ⟨v, ?_, le_refl v⟩
      show alGet (handleError s).trackTimestamps t = _
      unfold handleError
      split <;> exact h
    | markDisc now =>
      refine ⟨v, ?_, le_refl v⟩
      show alGet (markDiscontinuity cfg now s).trackTimestamps t = _
      unfold markDiscontinuity
      rw [if_neg (by simp [hs])]
      show alGet (outputSegment cfg now s).trackTimestamps t = _
      rw [(outputSegment_preserved cfg now s).2.1]
      exact h
    | stop =>
      refine ⟨v, ?_, le_refl v⟩
      show alGet (stopSegmenter s).trackTimestamps t = _
      unfold stopSegmenter
      split <;> exact h

/-- At every step an anchored baseline is stable: once
`trackExpectedDurations` holds `some b` for a track it holds it forever. -/
theorem step_expected_stable (cfg : Config) (opts : SegmenterOptions) (e : Event)
    (s : SegmenterState) (t b : Nat) (h : alGet s.trackExpectedDurations t = some b) :
    alGet (step cfg opts s e).trackExpectedDurations t = some b := by
  by_cases hst : s.stopped = true
  · rw [step_of_stopped cfg opts s e hst]
    exact h
  · have hs : s.stopped = false := by simpa using hst
    cases e with
    | box now b' =>
      cases b' with
      | ftyp data =>
        show alGet (handleBox cfg opts now (BoxEvent.ftyp data) s).trackExpectedDurations t = _
        rw [handleBox_ftyp_eq cfg opts now data s hs]
        split <;> exact h
      | moov data ts =>
        show alGet (handleBox cfg opts now (BoxEvent.moov data ts) s).trackExpectedDurations t = _
        by_cases hI : s.hasInit = true
        · rw [handleBox_moov_hasInit_eq cfg opts now data ts s hs hI]
          exact h
        · rw [handleBox_moov_noInit_eq cfg opts now data ts s hs (by simpa using hI),
            handleInitBox_moov_eq]
          exact h
      | moof data rw =>
        have hcv : alGet (cutState cfg now s).trackExpectedDurations t = some b := by
          rw [(cutState_preserved cfg now s).2.2.1]
          exact h
        show alGet (handleBox cfg opts now (BoxEvent.moof data rw) s).trackExpectedDurations t = _
        cases rw with
        | none =>
          rw [handleBox_moof_eq cfg opts now data none s hs]
          exact hcv
        | some durs =>
          rw [handleBox_moof_eq cfg opts now data (some durs) s hs]
          exact sanityLoop_expected_stable durs _ t b hcv
      | mdat data =>
        show alGet (handleBox cfg opts now (BoxEvent.mdat data) s).trackExpectedDurations t = _
        rw [handleBox_mdat_eq cfg opts now data s hs]
        exact h
      | other data =>
        show alGet (handleBox cfg opts now (BoxEvent.other data) s).trackExpectedDurations t = _
        rw [handleBox_other_eq cfg opts now data s hs]
        split <;> exact h
    | streamEnd now =>
      rw [show (step cfg opts s (Event.streamEnd now)).trackExpectedDurations =
        s.trackExpectedDurations from (handleEnd_preserved cfg now s).2.2.2.2.2.1]
      exact h
    | streamError =>
      show alGet (handleError s).trackExpectedDurations t = _
      unfold handleError
      split <;> exact h
    | markDisc now =>
      show alGet (markDiscontinuity cfg now s).trackExpectedDurations t = _
      unfold markDiscontinuity
      rw [if_neg (by simp [hs])]
      show alGet (outputSegment cfg now s).trackExpectedDurations t = _
      rw [(outputSegment_preserved cfg now s).2.2.1]
      exact h
    | stop =>
      show alGet (stopSegmenter s).trackExpectedDurations t = _
      unfold stopSegmenter
      split <;> exact h

/-! ## C2 -/

/-- C2: for every track and every sequence of segmenter operations (box
ingestion, `markDiscontinuity`, `stop`, stream end/error), the per-track
timestamp counter never decreases: a moof advances it by the trun-computed
duration, and when the sanity clamp fires the correction
`counter - duration + baseline` lands at the pre-moof value plus the
(positive) baseline, never below the pre-moof value, because the rewrite had
just advanced the counter by `duration`. -/
theorem C2_theorem (cfg : Config) (opts : SegmenterOptions) (events : List Event)
    (s : SegmenterState) (t : Nat) (v : Int)
    (h : alGet s.trackTimestamps t = some v) :
    ∃ w, alGet (run cfg opts s events).trackTimestamps t = some w ∧ v ≤ w := by
  induction events generalizing s v with
  | nil => exact ⟨v, h, le_refl v⟩
  | cons e es ih =>
    obtain ⟨w1, hw1, hvw1⟩ := step_counter_mono cfg opts e s t v h
    obtain ⟨w2, hw2, hw12⟩ := ih (step cfg opts s e) w1 hw1
    exact ⟨w2, hw2, le_trans hvw1 hw12⟩

/-- Witness for `C2_theorem` at concrete inputs: a carried-over counter, one
clamped moof (duration 2001 against baseline 100 anchored earlier), a
discontinuity and a stop. -/
theorem C2_witness :
    alGet (initState ⟨some [(1, 50)], none, none, none, none⟩ 0).trackTimestamps 1 =
      some 50 ∧
    ∃ w, alGet (run ⟨2, 5⟩ ⟨some [(1, 50)], none, none, none, none⟩
        (initState ⟨some [(1, 50)], none, none, none, none⟩ 0)
        [Event.box 0 (BoxEvent.ftyp [1]),
         Event.box 0 (BoxEvent.moov [2] (some [(1, 1000)])),
         Event.box 1 (BoxEvent.moof [3] (some [(1, 100)])),
         Event.box 2 (BoxEvent.moof [4] (some [(1, 2001)])),
         Event.markDisc 3,
         Event.stop]).trackTimestamps 1 = some w ∧ (50 : Int) ≤ w :=
  ⟨by decide, C2_theorem ⟨2, 5⟩ ⟨some [(1, 50)], none, none, none, none⟩ _ _ 1 50 (by decide)⟩

/-! ## C1 -/

theorem tdSum_append (t : Nat) : ∀ l1 l2 : List (Nat × Nat),
    tdSum t (l1 ++ l2) = tdSum t l1 + tdSum t l2 := by
  intro l1 l2
  induction l1 with
  | nil => simp [tdSum]
  | cons p rest ih =>
    obtain ⟨k, d⟩ := p
    show (if k = t then (d : Int) else 0) + tdSum t (rest ++ l2) =
      ((if k = t then (d : Int) else 0) + tdSum t rest) + tdSum t l2
    rw [ih]
    ring

theorem tdSum_of_no_key (t : Nat) : ∀ l : List (Nat × Nat),
    (∀ p ∈ l, p.1 ≠ t) → tdSum t l = 0 := by
  intro l
  induction l with
  | nil => intro _; rfl
  | cons p rest ih =>
    intro hall
    obtain ⟨k, d⟩ := p
    have hk : k ≠ t := hall (k, d) (by simp)
    show (if k = t then (d : Int) else 0) + tdSum t rest = 0
    rw [if_neg hk, ih (fun q hq => hall q (by simp [hq]))]
    simp

/-- A zero trun duration is skipped by the per-track loop: the only state
change is the rate-limited warning set. -/
theorem sanityStep_zero_eq (s : SegmenterState) (k : Nat) :
    sanityStep s (k, 0) =
      { s with zeroDurationWarned := setAdd s.zeroDurationWarned k } := by
  unfold sanityStep
  dsimp only
  rw [if_pos rfl]

/-- C1 (amended): for every moof processed after a baseline `b > 0` has been
anchored for a track, if the trun-computed duration `d` is **nonzero** and
`d > b * 20` or `d < b / 20` (integer division), the segmenter corrects that
track's counter by `counter := counter - d + b` — so the net advance for the
moof equals `b` — records `b` rather than `d` in the per-segment accumulated
duration used for EXTINF, and leaves the baseline unchanged; the baseline is
assigned exactly once, from the first nonzero duration observed for the
track (a zero trun duration is skipped entirely), and is stable under every
later operation. -/
theorem C1_theorem (cfg : Config) (opts : SegmenterOptions) :
    (∀ (s : SegmenterState) (t b d : Nat) (c : Int) (l1 l2 : List (Nat × Nat)),
      alGet s.trackExpectedDurations t = some b → 0 < b →
      alGet s.trackTimestamps t = some c → d ≠ 0 →
      (d > b * DURATION_SANITY_RATIO ∨ d < b / DURATION_SANITY_RATIO) →
      (∀ p ∈ l1, p.1 ≠ t) → (∀ p ∈ l2, p.1 ≠ t) →
      alGet (processTrafDurations s (l1 ++ (t, d) :: l2)).trackTimestamps t =
        some (c + b) ∧
      alGet (processTrafDurations s (l1 ++ (t, d) :: l2)).segmentTrackDurations t =
        some ((alGet s.segmentTrackDurations t).getD 0 + b) ∧
      alGet (processTrafDurations s (l1 ++ (t, d) :: l2)).trackExpectedDurations t =
        some b) ∧
    (∀ (e : Event) (s : SegmenterState) (t b : Nat),
      alGet s.trackExpectedDurations t = some b →
      alGet (step cfg opts s e).trackExpectedDurations t = some b) ∧
    (∀ (s : SegmenterState) (t d : Nat) (l1 l2 : List (Nat × Nat)),
      alGet s.trackExpectedDurations t = none → d ≠ 0 →
      (∀ p ∈ l1, p.1 ≠ t) → (∀ p ∈ l2, p.1 ≠ t) →
      alGet (processTrafDurations s (l1 ++ (t, d) :: l2)).trackExpectedDurations t =
        some d) ∧
    (∀ (s : SegmenterState) (t : Nat) (l1 l2 : List (Nat × Nat)),
      (∀ p ∈ l1, p.1 ≠ t) → (∀ p ∈ l2, p.1 ≠ t) →
      alGet (processTrafDurations s (l1 ++ (t, 0) :: l2)).trackExpectedDurations t =
        alGet s.trackExpectedDurations t ∧
      (∀ c : Int, alGet s.trackTimestamps t = some c →
        alGet (processTrafDurations s (l1 ++ (t, 0) :: l2)).trackTimestamps t = some c) ∧
      alGet (processTrafDurations s (l1 ++ (t, 0) :: l2)).segmentTrackDurations t =
        alGet s.segmentTrackDurations t) := by
  refine ⟨fun s t b d c l1 l2 hb hbpos hc hd hcond h1 h2 => ?_,
    fun e s t b h => step_expected_stable cfg opts e s t b h,
    fun s t d l1 l2 hnone hd h1 h2 => ?_,
    fun s t l1 l2 h1 h2 => ?_⟩
  · -- clamp effect
    unfold processTrafDurations
    rw [sanityLoop_append, sanityLoop_cons]
    set s0 : SegmenterState :=
      { s with trackTimestamps := advanceCounters s.trackTimestamps (l1 ++ (t, d) :: l2) }
      with hs0def
    have hadv : alGet s0.trackTimestamps t = some (c + (d : Int)) := by
      show alGet (advanceCounters s.trackTimestamps (l1 ++ (t, d) :: l2)) t = _
      rw [advanceCounters_get_entry s.trackTimestamps t d l1 l2 h1 h2, hc]
      rfl
    have hA := sanityLoop_get_ne l1 s0 t h1
    have hAtt : alGet (sanityLoop s0 l1).trackTimestamps t = some (c + (d : Int)) :=
      hA.1.trans hadv
    have hAexp : alGet (sanityLoop s0 l1).trackExpectedDurations t = some b :=
      hA.2.1.trans hb
    have hAseg : alGet (sanityLoop s0 l1).segmentTrackDurations t =
        alGet s.segmentTrackDurations t := hA.2.2
    have hclamp := sanityStep_clamp_eq (sanityLoop s0 l1) t d b (c + (d : Int)) hd hAexp
      ⟨by omega, hcond⟩ hAtt
    have hB := sanityLoop_get_ne l2 (sanityStep (sanityLoop s0 l1) (t, d)) t h2
    refine ⟨hB.1.trans ?_, hB.2.2.trans ?_, hB.2.1.trans (by rw [hclamp]; exact hAexp)⟩
    · rw [hclamp]
      show alGet (alSet (sanityLoop s0 l1).trackTimestamps t
        (c + (d : Int) - (d : Int) + (b : Int))) t = _
      rw [alGet_alSet_self]
      congr 1
      omega
    · rw [hclamp]
      show alGet (alSet (sanityLoop s0 l1).segmentTrackDurations t
        ((alGet (sanityLoop s0 l1).segmentTrackDurations t).getD 0 + b)) t = _
      rw [alGet_alSet_self, hAseg]
  · -- anchoring from the first nonzero duration
    unfold processTrafDurations
    rw [sanityLoop_append, sanityLoop_cons]
    set s0 : SegmenterState :=
      { s with trackTimestamps := advanceCounters s.trackTimestamps (l1 ++ (t, d) :: l2) }
      with hs0def
    have hA := sanityLoop_get_ne l1 s0 t h1
    have hAexp : alGet (sanityLoop s0 l1).trackExpectedDurations t = none :=
      hA.2.1.trans hnone
    have hanchor := sanityStep_anchor_eq (sanityLoop s0 l1) t d hd hAexp
    have hB := sanityLoop_get_ne l2 (sanityStep (sanityLoop s0 l1) (t, d)) t h2
    refine hB.2.1.trans ?_
    rw [hanchor]
    exact alGet_alSet_self _ _ _
  · -- a zero duration is skipped entirely for its track: the baseline is not
    -- anchored (none stays none) and not updated, the counter does not move,
    -- and nothing is accumulated for EXTINF
    unfold processTrafDurations
    rw [sanityLoop_append, sanityLoop_cons]
    set s0 : SegmenterState :=
      { s with trackTimestamps := advanceCounters s.trackTimestamps (l1 ++ (t, 0) :: l2) }
      with hs0def
    have hA := sanityLoop_get_ne l1 s0 t h1
    have hzero := sanityStep_zero_eq (sanityLoop s0 l1) t
    have hB := sanityLoop_get_ne l2 (sanityStep (sanityLoop s0 l1) (t, 0)) t h2
    refine ⟨?_, ?_, ?_⟩
    · refine hB.2.1.trans ?_
      rw [hzero]
      exact hA.2.1
    · intro c hc
      have htd : tdSum t (l1 ++ (t, 0) :: l2) = 0 := by
        rw [tdSum_append]
        have hcons : tdSum t ((t, 0) :: l2) =
            (if t = t then ((0 : Nat) : Int) else 0) + tdSum t l2 := rfl
        rw [hcons, tdSum_of_no_key t l1 h1, tdSum_of_no_key t l2 h2]
        simp
      have hadv : alGet s0.trackTimestamps t = some c := by
        show alGet (advanceCounters s.trackTimestamps (l1 ++ (t, 0) :: l2)) t = _
        rw [advanceCounters_get_some (l1 ++ (t, 0) :: l2) s.trackTimestamps t c hc, htd]
        simp
      refine hB.1.trans ?_
      rw [hzero]
      exact hA.1.trans hadv
    · refine hB.2.2.trans ?_
      rw [hzero]
      exact hA.2.2

/-- C1 counterexample: the claim as stated applies the clamp to every
duration `d` with `d > 20b` or `d < b / 20`, including `d = 0`.  After a
baseline of 20 is anchored for track 1, a moof reporting duration 0 for that
track satisfies `0 < 20 / 20 = 1`, so the claim demands the corrective net
advance `b`, leaving the counter at `20 + 20 = 40` and recording `b` in the
per-segment accumulation — but the code skips zero durations entirely (only
a rate-limited warning), so the counter stays at 20. -/
theorem C1_counterexample :
    alGet (run ⟨2, 5⟩ ⟨none, none, none, none, none⟩
        (initState ⟨none, none, none, none, none⟩ 0)
        [Event.box 0 (BoxEvent.moof [3] (some [(1, 20)])),
         Event.box 1 (BoxEvent.moof [5] (some [(1, 0)]))]).trackExpectedDurations 1 =
      some 20 ∧
    (0 : Nat) < 20 / DURATION_SANITY_RATIO ∧
    alGet (run ⟨2, 5⟩ ⟨none, none, none, none, none⟩
        (initState ⟨none, none, none, none, none⟩ 0)
        [Event.box 0 (BoxEvent.moof [3] (some [(1, 20)])),
         Event.box 1 (BoxEvent.moof [5] (some [(1, 0)]))]).trackTimestamps 1 = some 20 ∧
    ¬alGet (run ⟨2, 5⟩ ⟨none, none, none, none, none⟩
        (initState ⟨none, none, none, none, none⟩ 0)
        [Event.box 0 (BoxEvent.moof [3] (some [(1, 20)])),
         Event.box 1 (BoxEvent.moof [5] (some [(1, 0)]))]).trackTimestamps 1 = some 40 := by
  decide

/-- Witness for `C1_theorem` at concrete inputs: a clamped moof against an
anchored baseline, an anchoring moof, and a zero-duration moof that leaves
an unanchored baseline unanchored and the counter in place — so that, for
instance, a track reporting durations 0, 0, 5 ends with baseline 5. -/
theorem C1_witness :
    (alGet ({ initState ⟨some [(1, 50)], none, none, none, none⟩ 0 with
        trackExpectedDurations := [(1, 100)] } : SegmenterState).trackExpectedDurations 1 =
      some 100 ∧
      alGet ({ initState ⟨some [(1, 50)], none, none, none, none⟩ 0 with
        trackExpectedDurations := [(1, 100)] } : SegmenterState).trackTimestamps 1 =
      some 50 ∧
      ((2001 : Nat) > 100 * DURATION_SANITY_RATIO ∨
        (2001 : Nat) < 100 / DURATION_SANITY_RATIO)) ∧
    alGet (processTrafDurations
        { initState ⟨some [(1, 50)], none, none, none, none⟩ 0 with
          trackExpectedDurations := [(1, 100)] }
        ([(2, 7)] ++ (1, 2001) :: [])).trackTimestamps 1 = some (50 + 100) ∧
    alGet (processTrafDurations
        { initState ⟨some [(1, 50)], none, none, none, none⟩ 0 with
          trackExpectedDurations := [(1, 100)] }
        ([(2, 7)] ++ (1, 2001) :: [])).trackExpectedDurations 1 = some 100 ∧
    alGet (processTrafDurations (initState ⟨none, none, none, none, none⟩ 0)
        ([] ++ (1, 90000) :: [])).trackExpectedDurations 1 = some 90000 ∧
    (alGet (initState ⟨none, none, none, none, none⟩ 0).trackExpectedDurations 1 = none ∧
      alGet (processTrafDurations (initState ⟨none, none, none, none, none⟩ 0)
          ([] ++ (1, 0) :: [])).trackExpectedDurations 1 =
        alGet (initState ⟨none, none, none, none, none⟩ 0).trackExpectedDurations 1) ∧
    alGet (processTrafDurations (processTrafDurations (processTrafDurations
        (initState ⟨none, none, none, none, none⟩ 0) [(1, 0)]) [(1, 0)])
        [(1, 5)]).trackExpectedDurations 1 = some 5 := by
  have hA := (C1_theorem ⟨2, 5⟩ ⟨none, none, none, none, none⟩).1
    { initState ⟨some [(1, 50)], none, none, none, none⟩ 0 with
      trackExpectedDurations := [(1, 100)] } 1 100 2001 50 [(2, 7)] []
    (by decide) (by decide) (by decide) (by decide) (by decide)
    (by intro p hp; simp at hp; subst hp; decide) (by intro p hp; simp at hp)
  have hC := (C1_theorem ⟨2, 5⟩ ⟨none, none, none, none, none⟩).2.2.1
    (initState ⟨none, none, none, none, none⟩ 0) 1 90000 [] []
    (by decide) (by decide) (by intro p hp; simp at hp) (by intro p hp; simp at hp)
  have hZ := (C1_theorem ⟨2, 5⟩ ⟨none, none, none, none, none⟩).2.2.2
    (initState ⟨none, none, none, none, none⟩ 0) 1 [] []
    (by intro p hp; simp at hp) (by intro p hp; simp at hp)
  exact ⟨⟨by decide, by decide, by decide⟩, hA.1, hA.2.2, hC, ⟨by decide, hZ.1⟩, by decide⟩
